import Mathlib

/-!
Verification of the dashboard diff-and-generate pipeline
(`scripts/update_tenant_dashboard.py` and `scripts/update_dashboard.py`).

The Python code manipulates YAML-parsed records (nested dicts/lists of
scalars).  We embed those records as the inductive type `Value`, Python's
`==` on such records as `pyEq` (CPython semantics: dict equality is
length + key-wise value equality, `bool` compares equal to the
corresponding `int`), and each relevant Python function as a Lean
function of the same name.
-/

namespace DashboardSync

/-- A YAML-parsed Python value: scalars, lists and string-keyed mappings.
This is the shape produced by `yaml.safe_load` on dashboard documents. -/
inductive Value where
  | str (s : String)
  | int (n : Int)
  | bool (b : Bool)
  | null
  | list (xs : List Value)
  | map (entries : List (String × Value))

/-- First-match association-list lookup, the model of Python `dict[key]`
for string-keyed mappings (real dicts never hold a duplicate key). -/
def lookupAssoc : List (String × Value) → String → Option Value
  | [], _ => none
  | (k, v) :: rest, q => if k = q then some v else lookupAssoc rest q

mutual

/-- CPython `==` on embedded values: numeric cross-equality between
`bool` and `int`, element-wise equality on lists, and dict equality as
equal length plus key-wise equal values (`len(a) == len(b) and all
(k in b and b[k] == v for k, v in a.items())`). -/
def pyEq : Value → Value → Bool
  | .str a, .str b => a == b
  | .int a, .int b => a == b
  | .int a, .bool b => a == (if b then (1 : Int) else 0)
  | .bool a, .int b => (if a then (1 : Int) else 0) == b
  | .bool a, .bool b => a == b
  | .null, .null => true
  | .list xs, .list ys => pyEqList xs ys
  | .map m, .map n => m.length == n.length && pyEqEntries m n
  | _, _ => false

/-- Element-wise Python `==` on lists. -/
def pyEqList : List Value → List Value → Bool
  | [], [] => true
  | x :: xs, y :: ys => pyEq x y && pyEqList xs ys
  | _, _ => false

/-- For every entry of the first mapping, the second mapping holds the
key with a Python-equal value. -/
def pyEqEntries : List (String × Value) → List (String × Value) → Bool
  | [], _ => true
  | (k, v) :: rest, n =>
    (match lookupAssoc n k with
     | some w => pyEq v w
     | none => false) && pyEqEntries rest n

end

/-- Python truthiness (`if x:`) for embedded values. -/
def truthy : Value → Bool
  | .str s => s != ""
  | .int n => n != 0
  | .bool b => b
  | .null => false
  | .list xs => !xs.isEmpty
  | .map m => !m.isEmpty

/-- An element or filter record: one string-keyed mapping, in document
key order (Python dicts preserve insertion order). -/
abbrev Elem := List (String × Value)

/-- Python `dict.pop(k, None)`: drop the key from the record. -/
def elemPop (e : Elem) (k : String) : Elem :=
  e.filter (fun p => p.1 != k)

/-- Python `el.get("name", "")`. -/
def getName (e : Elem) : Value :=
  (lookupAssoc e "name").getD (.str "")

/-- The fixed table of noisy Looker-API defaults from
`normalize_element` in `update_tenant_dashboard.py`, in source order. -/
def noisyDefaults : List (String × Value) :=
  [ ("show_view_names", .bool false)
  , ("show_comparison", .bool false)
  , ("comparison_type", .str "value")
  , ("comparison_reverse_colors", .bool false)
  , ("show_comparison_label", .bool true)
  , ("enable_conditional_formatting", .bool false)
  , ("conditional_formatting_include_totals", .bool false)
  , ("conditional_formatting_include_nulls", .bool false)
  , ("defaults_version", .int 1)
  , ("tab_name", .str "")
  , ("hidden", .bool false)
  , ("transpose", .bool false)
  , ("truncate_text", .bool true)
  , ("hide_totals", .bool false)
  , ("hide_row_totals", .bool false)
  , ("size_to_fit", .bool true)
  , ("row", .null)
  , ("col", .null)
  , ("width", .null)
  , ("height", .null) ]

/-- One step of the noisy-default sweep: `if key in normalized and
normalized[key] == default_val: normalized.pop(key)`. -/
def condPop (e : Elem) (k : String) (d : Value) : Elem :=
  match lookupAssoc e k with
  | some v => if pyEq v d then elemPop e k else e
  | none => e

/-- `normalize_element(element, remove_model)` from
`update_tenant_dashboard.py`: pop the volatile identifiers `id`, `slug`,
`preferred_slug`; pop `model` when requested; then pop every noisy
default whose present value is Python-equal to the listed default. -/
def normalize_element (element : Elem) (remove_model : Bool := false) : Elem :=
  let n1 := elemPop (elemPop (elemPop element "id") "slug") "preferred_slug"
  let n2 := if remove_model then elemPop n1 "model" else n1
  noisyDefaults.foldl (fun acc kd => condPop acc kd.1 kd.2) n2

/-- Abbreviation for the noisy-default sweep over an arbitrary table
(the third step of `normalize_element`). -/
def noisySweep (table : List (String × Value)) (e : Elem) : Elem :=
  table.foldl (fun acc kd => condPop acc kd.1 kd.2) e

/-- Python `tenant_norm != base_norm` on two records (dict inequality). -/
def pyEqElem (a b : Elem) : Bool :=
  pyEq (.map a) (.map b)

/-- Insertion into the name-indexed lookup, with Python `dict`
assignment semantics: an existing Python-equal key keeps its place (and
its stored key object) and has its value overwritten, otherwise the new
binding is appended. -/
def insertIdx (idx : List (Value × Elem)) (name : Value) (el : Elem) :
    List (Value × Elem) :=
  match idx with
  | [] => [(name, el)]
  | (k, e) :: rest =>
    if pyEq k name then (k, el) :: rest else (k, e) :: insertIdx rest name el

/-- Python `dict` lookup / membership on the name index: first binding
whose stored key is Python-equal to the query. -/
def lookupIdx (idx : List (Value × Elem)) (name : Value) : Option Elem :=
  match idx with
  | [] => none
  | (k, e) :: rest => if pyEq k name then some e else lookupIdx rest name

/-- The `base_by_name` index of `compare_elements`: keyed by
`el.get("name", "")`, skipping entries with a falsy name. -/
def buildElemIdx (base_elements : List Elem) : List (Value × Elem) :=
  base_elements.foldl
    (fun idx el =>
      if truthy (getName el) then insertIdx idx (getName el) el else idx)
    []

/-- The `base_by_name` index of `compare_filters` (a dict comprehension):
keyed by `f.get("name", "")` with no truthiness guard, so falsy names
are indexed too. -/
def buildFilterIdx (base_filters : List Elem) : List (Value × Elem) :=
  base_filters.foldl (fun idx f => insertIdx idx (getName f) f) []

/-- `compare_elements(tenant_elements, base_elements)`: index the base
list by truthy name, then keep, in order, every tenant element whose
name is absent from the index or whose normalization (model removed)
differs from the normalization of its base counterpart. -/
def compare_elements (tenant_elements base_elements : List Elem) : List Elem :=
  let base_by_name := base_elements.foldl
    (fun idx el =>
      if truthy (getName el) then insertIdx idx (getName el) el else idx)
    []
  tenant_elements.foldl
    (fun diff t =>
      let tenant_norm := normalize_element t true
      match lookupIdx base_by_name (getName t) with
      | none => diff ++ [t]
      | some b =>
        if pyEqElem tenant_norm (normalize_element b true) then diff
        else diff ++ [t])
    []

/-- `compare_filters(tenant_filters, base_filters)`: same loop as
`compare_elements`, but the base index is a dict comprehension with no
truthiness guard on the name. -/
def compare_filters (tenant_filters base_filters : List Elem) : List Elem :=
  let base_by_name := base_filters.foldl (fun idx f => insertIdx idx (getName f) f) []
  tenant_filters.foldl
    (fun diff t =>
      let tenant_norm := normalize_element t true
      match lookupIdx base_by_name (getName t) with
      | none => diff ++ [t]
      | some b =>
        if pyEqElem tenant_norm (normalize_element b true) then diff
        else diff ++ [t])
    []

/-! ### Base-dashboard fetch and the extend-case dispatch -/

/-- Response handling of `get_base_dashboard_from_github`, as a function
of the HTTP response: status 200 returns the body text, status 404 logs
an info line and returns `None`, and every other status logs a warning
and returns `None` as well — the function never raises or exits. -/
def get_base_dashboard_from_github (status : Nat) (body : String) : Option String :=
  if status = 200 then some body
  else if status = 404 then none
  else none

/-- Which way `main` goes inside the extend case (lines 527-565 of
`update_tenant_dashboard.py`) as a function of the base fetch response. -/
inductive ExtendOutcome where
  | standaloneFallback
  | diffAgainstBase (base_lookml : String)
  | abortRun

/-- The `if not base_lookml:` dispatch of `main`: a missing base (fetch
returned `None`) or an empty fetched text falls back to standalone
generation; otherwise the diff path runs against the fetched base text.
No branch aborts the run. -/
def extendCaseDispatch (status : Nat) (body : String) : ExtendOutcome :=
  match get_base_dashboard_from_github status body with
  | none => .standaloneFallback
  | some s => if s = "" then .standaloneFallback else .diffAgainstBase s

/-! ### Text-level operations

The Python side works on raw text with `re`.  We embed the concrete
regexes used by the scripts as character-list scanners with the exact
backtracking behaviour of the pattern (analysed per pattern in the doc
comments), over the Python `\s` character class; the regex `\w` class is
modelled by its ASCII part, which covers LookML identifiers. -/

/-- The Python regex class `\s`. -/
def isPyWs (c : Char) : Bool :=
  c = ' ' || c = '\t' || c = '\n' || c = '\r' || c = Char.ofNat 11 || c = Char.ofNat 12

/-- The Python regex class `\w` (ASCII part). -/
def isWordCh (c : Char) : Bool :=
  c.isAlphanum || c = '_'

/-- An opening curly brace character. -/
def lbrace : Char := Char.ofNat 123

/-- A closing curly brace character. -/
def rbrace : Char := Char.ofNat 125

/-- The regex class `[@\w{}]` of `replace_model_name` in
`update_tenant_dashboard.py`. -/
def isModelTokCh (c : Char) : Bool :=
  c = '@' || c = lbrace || c = rbrace || isWordCh c

/-- Python `text.split("\n")` on a character list. -/
def splitLinesCh : List Char → List (List Char)
  | [] => [[]]
  | c :: cs =>
    if c = '\n' then [] :: splitLinesCh cs
    else
      match splitLinesCh cs with
      | [] => [[c]]
      | l :: ls => (c :: l) :: ls

/-- Python `"\n".join(lines)` on character lists. -/
def joinLinesCh : List (List Char) → List Char
  | [] => []
  | [l] => l
  | l :: ls => l ++ '\n' :: joinLinesCh ls

/-- Tail of the volatile-line regex after the indentation: a key
followed by `\s*` and a colon. -/
def keyThenColon (key : List Char) (cs : List Char) : Bool :=
  key.isPrefixOf cs && ((cs.drop key.length).dropWhile isPyWs).head? == some ':'

/-- `re.match(r"^\s{2,4}(id|slug|preferred_slug)\s*:", line)` from
`clean_lookml` / `remove_id_and_slug`.  Since each alternative of the
key group starts with a non-`\s` character, `\s{2,4}` can only consume
the whole leading whitespace run, so the regex matches exactly when that
run has length 2, 3 or 4 and is followed by one of the keys, optional
whitespace and a colon. -/
def matchesVolatile (line : List Char) : Bool :=
  let n := (line.takeWhile isPyWs).length
  decide (2 ≤ n) && decide (n ≤ 4)
    && (keyThenColon "id".data (line.dropWhile isPyWs)
        || keyThenColon "slug".data (line.dropWhile isPyWs)
        || keyThenColon "preferred_slug".data (line.dropWhile isPyWs))

/-- `clean_lookml(lookml)` from `update_tenant_dashboard.py`: split on
newlines, drop every line the volatile-key regex matches, join back. -/
def clean_lookml (lookml : String) : String :=
  let lines := splitLinesCh lookml.data
  let filtered := lines.foldl
    (fun acc line => if matchesVolatile line then acc else acc ++ [line]) []
  String.mk (joinLinesCh filtered)

/-- `remove_id_and_slug(lookml)` from `update_dashboard.py`: the same
split/filter/join loop over the same regex (its `line.strip()` local is
unused by the filter). -/
def remove_id_and_slug (lookml : String) : String :=
  let lines := splitLinesCh lookml.data
  let filtered := lines.foldl
    (fun acc line => if matchesVolatile line then acc else acc ++ [line]) []
  String.mk (joinLinesCh filtered)

/-- Specification-side description of a removed line: 2 to 4 leading
whitespace characters, one of the three volatile keys, optional
whitespace, then a colon. -/
def VolatileLine (l : List Char) : Prop :=
  ∃ (w t r : List Char) (k : String),
    (k = "id" ∨ k = "slug" ∨ k = "preferred_slug")
    ∧ (∀ c ∈ w, isPyWs c = true) ∧ 2 ≤ w.length ∧ w.length ≤ 4
    ∧ (∀ c ∈ t, isPyWs c = true)
    ∧ l = w ++ k.data ++ t ++ ':' :: r

/-- One attempt of the regex
`(model:\s*)(?:\"[^\"]*\"|[@\w{}]+)` at the current position: on
success, the pair of the captured group 1 (`model:` plus the whitespace
run) and the input remaining after the matched value.  The quoted
alternative is tried first; on an unterminated quote the token
alternative also fails, because `"` is not in `[@\w{}]`. -/
def tryModelMatch (cs : List Char) : Option (List Char × List Char) :=
  if ("model:".data).isPrefixOf cs then
    match (cs.drop 6).dropWhile isPyWs with
    | c :: tail =>
      if c = '"' then
        match tail.dropWhile (fun d => d != '"') with
        | _ :: rest2 => some ("model:".data ++ (cs.drop 6).takeWhile isPyWs, rest2)
        | [] => none
      else if isModelTokCh c then
        some ("model:".data ++ (cs.drop 6).takeWhile isPyWs,
          (c :: tail).dropWhile isModelTokCh)
      else none
    | [] => none
  else none

/-- `re.sub` over the whole text for the model-reference pattern:
leftmost-first scanning, each match replaced by group 1 followed by the
replacement, scanning resuming after the matched value. -/
def subModelAux (repl : List Char) : List Char → List Char
  | [] => []
  | c :: cs =>
    match h : tryModelMatch (c :: cs) with
    | some gr => gr.1 ++ repl ++ subModelAux repl gr.2
    | none => c :: subModelAux repl cs
termination_by l => l.length
decreasing_by
  · unfold tryModelMatch at h
    split at h
    case isFalse => exact absurd h (by simp)
    case isTrue hpre =>
      split at h
      case h_2 => exact absurd h (by simp)
      case h_1 c' tail hdrop =>
        have hdw : (c' :: tail).length ≤ ((c :: cs).drop 6).length := by
          rw [← hdrop]
          exact (List.dropWhile_sublist _).length_le
        have hd6 : ((c :: cs).drop 6).length ≤ cs.length := by
          rw [List.length_drop]
          simp only [List.length_cons]
          omega
        split at h
        case isTrue hq =>
          split at h
          case h_2 => exact absurd h (by simp)
          case h_1 d rest2 heq =>
            have hr : (d :: rest2).length ≤ tail.length := by
              rw [← heq]
              exact (List.dropWhile_sublist _).length_le
            cases h
            simp only [List.length_cons] at *
            omega
        case isFalse hq =>
          split at h
          case isFalse => exact absurd h (by simp)
          case isTrue htok =>
            have hr : ((c' :: tail).dropWhile isModelTokCh).length ≤ tail.length := by
              rw [List.dropWhile_cons, if_pos htok]
              exact (List.dropWhile_sublist _).length_le
            cases h
            simp only [List.length_cons] at *
            omega
  · simp

/-- Python `str.startswith` as a prefix test on the character data. -/
def strStartsWith (s p : String) : Bool :=
  p.data.isPrefixOf s.data

/-- The manifest placeholder `@` followed by `model_name` in braces, the
default `target_model` of `replace_model_name`. -/
def modelPlaceholder : String :=
  "@" ++ String.mk [lbrace] ++ "model_name" ++ String.mk [rbrace]

/-- The replacement text computed by `replace_model_name`: the target is
kept verbatim when it starts with `@` and an opening brace, and is
double-quoted otherwise. -/
def canonicalModelTarget (target_model : String) : String :=
  if ['@', lbrace].isPrefixOf target_model.data then target_model
  else "\"" ++ target_model ++ "\""

/-- `replace_model_name(lookml, target_model)` from
`update_tenant_dashboard.py`: substitutes every occurrence of
`model: <value>` (quoted, bare-token or placeholder value) by
`model: ` plus the canonical target. -/
def replace_model_name (lookml : String) (target_model : String := modelPlaceholder) :
    String :=
  String.mk (subModelAux (canonicalModelTarget target_model).data lookml.data)

/-- The fixed replacement `"@{model_name}"` (`\1"@\x7bmodel_name\x7d"`
minus group 1) of both substitutions of `replace_model_name` in
`update_dashboard.py`. -/
def quotedPlaceholder : List Char :=
  '"' :: modelPlaceholder.data ++ ['"']

/-- One attempt of the first substitution regex of `replace_model_name`
in `update_dashboard.py`, `(model:\s*)"[^"]*"`: the literal, the greedy
whitespace run (`"` is not whitespace, so the run is consumed whole),
then a complete double-quoted value (`[^"]*` also crosses newlines).
On success, the captured group 1 and the input remaining after the
closing quote. -/
def tryQuotedMatch (cs : List Char) : Option (List Char × List Char) :=
  if ("model:".data).isPrefixOf cs then
    match (cs.drop 6).dropWhile isPyWs with
    | c :: tail =>
      if c = '"' then
        match tail.dropWhile (fun d => d != '"') with
        | _ :: rest2 => some ("model:".data ++ (cs.drop 6).takeWhile isPyWs, rest2)
        | [] => none
      else none
    | [] => none
  else none

/-- One attempt of the second substitution regex of `replace_model_name`
in `update_dashboard.py`, `(model:\s*)(?!["@])(\S+)`: the literal, the
whitespace run, then a non-whitespace run whose first character is
neither `"` nor `@` (the negative lookahead).  Backtracking the greedy
`\s*` cannot rescue a rejected lookahead: the lookahead then sits on a
whitespace character, where `\S+` fails. -/
def tryBareMatch (cs : List Char) : Option (List Char × List Char) :=
  if ("model:".data).isPrefixOf cs then
    match (cs.drop 6).dropWhile isPyWs with
    | c :: tail =>
      if c = '"' ∨ c = '@' then none
      else
        some ("model:".data ++ (cs.drop 6).takeWhile isPyWs,
          (c :: tail).dropWhile (fun d => !isPyWs d))
    | [] => none
  else none

/-- The first `re.sub` of `update_dashboard.py`'s `replace_model_name`:
every quoted `model:` value replaced by group 1 plus the quoted
placeholder. -/
def subQuotedAux : List Char → List Char
  | [] => []
  | c :: cs =>
    match h : tryQuotedMatch (c :: cs) with
    | some gr => gr.1 ++ quotedPlaceholder ++ subQuotedAux gr.2
    | none => c :: subQuotedAux cs
termination_by l => l.length
decreasing_by
  · unfold tryQuotedMatch at h
    split at h
    case isFalse => exact absurd h (by simp)
    case isTrue hpre =>
      split at h
      case h_2 => exact absurd h (by simp)
      case h_1 c' tail hdrop =>
        have hdw : (c' :: tail).length ≤ ((c :: cs).drop 6).length := by
          rw [← hdrop]
          exact (List.dropWhile_sublist _).length_le
        have hd6 : ((c :: cs).drop 6).length ≤ cs.length := by
          rw [List.length_drop]
          simp only [List.length_cons]
          omega
        split at h
        case isFalse => exact absurd h (by simp)
        case isTrue hq =>
          split at h
          case h_2 => exact absurd h (by simp)
          case h_1 d rest2 heq =>
            have hr : (d :: rest2).length ≤ tail.length := by
              rw [← heq]
              exact (List.dropWhile_sublist _).length_le
            cases h
            simp only [List.length_cons] at *
            omega
  · simp

/-- The second `re.sub` of `update_dashboard.py`'s `replace_model_name`:
every bare `model:` value (not quoted, not already templated) replaced
by group 1 plus the quoted placeholder. -/
def subBareAux : List Char → List Char
  | [] => []
  | c :: cs =>
    match h : tryBareMatch (c :: cs) with
    | some gr => gr.1 ++ quotedPlaceholder ++ subBareAux gr.2
    | none => c :: subBareAux cs
termination_by l => l.length
decreasing_by
  · unfold tryBareMatch at h
    split at h
    case isFalse => exact absurd h (by simp)
    case isTrue hpre =>
      split at h
      case h_2 => exact absurd h (by simp)
      case h_1 c' tail hdrop =>
        have hdw : (c' :: tail).length ≤ ((c :: cs).drop 6).length := by
          rw [← hdrop]
          exact (List.dropWhile_sublist _).length_le
        have hd6 : ((c :: cs).drop 6).length ≤ cs.length := by
          rw [List.length_drop]
          simp only [List.length_cons]
          omega
        split at h
        case isTrue => exact absurd h (by simp)
        case isFalse hor =>
          have hr : ((c' :: tail).dropWhile (fun d => !isPyWs d)).length
              ≤ (c' :: tail).length :=
            (List.dropWhile_sublist _).length_le
          cases h
          simp only [List.length_cons] at *
          omega
  · simp

namespace UpdateDashboard

/-- `replace_model_name(lookml)` from `update_dashboard.py` (no target
parameter): the quoted-value substitution followed by the bare-value
substitution, both writing the quoted placeholder `"@\x7bmodel_name\x7d"`;
an already-templated `model: @\x7b...\x7d` value matches neither pattern —
the second regex's lookahead rejects the `@` — and is left unchanged,
unquoted. -/
def replace_model_name (lookml : String) : String :=
  String.mk (subBareAux (subQuotedAux lookml.data))

end UpdateDashboard

/-! ### Document generation

`generate_extends_dashboard` builds a Python dict, wraps designated
fields for single-line ("flow") rendering, serializes it with a
`yaml.dump` configured for block style with insertion order kept
(`sort_keys=False`), prepends the `---` document separator when missing
and applies the model substitution.  The serializer itself is external
library code (PyYAML); `yamlDump` below models it for plain scalars. -/

/-- A value tagged for rendering: `list`/`map` carry the flow flag that
`FlowList`/`FlowDict` wrapping sets in the Python code. -/
inductive RValue where
  | str (s : String)
  | int (n : Int)
  | bool (b : Bool)
  | null
  | list (flow : Bool) (xs : List RValue)
  | map (flow : Bool) (entries : List (String × RValue))

mutual

/-- Untagged conversion: the raw value, everything block-style. -/
def toR : Value → RValue
  | .str s => .str s
  | .int n => .int n
  | .bool b => .bool b
  | .null => .null
  | .list xs => .list false (toRList xs)
  | .map m => .map false (toREntries m)

/-- Untagged conversion of a list of values. -/
def toRList : List Value → List RValue
  | [] => []
  | v :: rest => toR v :: toRList rest

/-- Untagged conversion of mapping entries. -/
def toREntries : List (String × Value) → List (String × RValue)
  | [] => []
  | (k, v) :: rest => (k, toR v) :: toREntries rest

end

/-- The fields rendered on a single line by `wrap_flow_structures`. -/
def flowKeys : List String :=
  ["extends", "fields", "sorts", "listens_to_filters", "listen"]

mutual

/-- `wrap_flow_structures(data)`: in a dict, a flow-key's list or dict
value is wrapped as `FlowList`/`FlowDict` (its children left raw, they
render flow anyway inside a flow collection), any other value recurses;
lists recurse element-wise; scalars are returned unchanged. -/
def wrap_flow_structures : Value → RValue
  | .map entries => .map false (wrapEntries entries)
  | .list xs => .list false (wrapList xs)
  | .str s => .str s
  | .int n => .int n
  | .bool b => .bool b
  | .null => .null

/-- Per-entry logic of `wrap_flow_structures` on a dict. -/
def wrapEntries : List (String × Value) → List (String × RValue)
  | [] => []
  | (k, v) :: rest =>
    (if flowKeys.contains k then
      (k, match v with
          | .list xs => RValue.list true (toRList xs)
          | .map m => RValue.map true (toREntries m)
          | .str s => RValue.str s
          | .int n => RValue.int n
          | .bool b => RValue.bool b
          | .null => RValue.null)
     else (k, wrap_flow_structures v)) :: wrapEntries rest

/-- Element-wise recursion of `wrap_flow_structures` on a list. -/
def wrapList : List Value → List RValue
  | [] => []
  | v :: rest => wrap_flow_structures v :: wrapList rest

end

/-- Scalar rendering of the YAML emitter model (plain style). -/
def renderScalar : RValue → Option String
  | .str s => some s
  | .int n => some (toString n)
  | .bool b => some (cond b "true" "false")
  | .null => some "null"
  | _ => none

mutual

/-- Flow (single-line) rendering of a value. -/
def renderFlow : RValue → String
  | .str s => s
  | .int n => toString n
  | .bool b => cond b "true" "false"
  | .null => "null"
  | .list _ xs => "[" ++ renderFlowItems xs ++ "]"
  | .map _ m => String.mk [lbrace] ++ renderFlowEntries m ++ String.mk [rbrace]

/-- Comma-separated flow rendering of sequence items. -/
def renderFlowItems : List RValue → String
  | [] => ""
  | [x] => renderFlow x
  | x :: xs => renderFlow x ++ ", " ++ renderFlowItems xs

/-- Comma-separated flow rendering of mapping entries. -/
def renderFlowEntries : List (String × RValue) → String
  | [] => ""
  | [(k, v)] => k ++ ": " ++ renderFlow v
  | (k, v) :: rest => k ++ ": " ++ renderFlow v ++ ", " ++ renderFlowEntries rest

end

/-- A value that renders on the key's own line: scalars, flow-tagged
collections, and empty collections. -/
def renderInline : RValue → Option String
  | .list true xs => some ("[" ++ renderFlowItems xs ++ "]")
  | .map true m => some (String.mk [lbrace] ++ renderFlowEntries m ++ String.mk [rbrace])
  | .list false [] => some "[]"
  | .map false [] => some (String.mk [lbrace] ++ String.mk [rbrace])
  | v => renderScalar v

/-- An indentation run. -/
def spaces (n : Nat) : String := String.mk (List.replicate n ' ')

mutual

/-- Block rendering of mapping entries at the given indent. -/
def renderMapBlock (ind : Nat) : List (String × RValue) → String
  | [] => ""
  | (k, v) :: rest =>
    (match renderInline v with
     | some s => spaces ind ++ k ++ ": " ++ s ++ "\n"
     | none =>
       match v with
       | .map _ m => spaces ind ++ k ++ ":\n" ++ renderMapBlock (ind + 2) m
       | .list _ xs => spaces ind ++ k ++ ":\n" ++ renderSeqBlock ind xs
       | _ => "")
    ++ renderMapBlock ind rest

/-- Block rendering of sequence items at the given indent (PyYAML keeps
the dash of a nested sequence at its parent key's indent). -/
def renderSeqBlock (ind : Nat) : List RValue → String
  | [] => ""
  | v :: rest =>
    (match renderInline v with
     | some s => spaces ind ++ "- " ++ s ++ "\n"
     | none =>
       match v with
       | .map _ m => spaces ind ++ "- " ++ renderMapHang (ind + 2) m
       | .list _ xs => spaces ind ++ "-" ++ "\n" ++ renderSeqBlock (ind + 2) xs
       | _ => "")
    ++ renderSeqBlock ind rest

/-- A mapping rendered hanging off a sequence dash: first entry on the
dash's line, later entries at the hang indent. -/
def renderMapHang (ind : Nat) : List (String × RValue) → String
  | [] => "\n"
  | (k, v) :: rest =>
    (match renderInline v with
     | some s => k ++ ": " ++ s ++ "\n"
     | none =>
       match v with
       | .map _ m => k ++ ":\n" ++ renderMapBlock (ind + 2) m
       | .list _ xs => k ++ ":\n" ++ renderSeqBlock ind xs
       | _ => "")
    ++ renderMapBlock ind rest

end

/-- Model of `yaml.dump(docs, Dumper=LookMLDumper,
default_flow_style=False, allow_unicode=True, sort_keys=False,
width=200)`: the document list as a top-level block sequence. -/
def yamlDump (docs : List RValue) : String :=
  renderSeqBlock 0 docs

/-- The dict literal built by `generate_extends_dashboard`: name, title
(tenant title, or `"<base> - <tenant>"` when the tenant title is empty),
the extends list, and the two diff lists only when non-empty. -/
def extendsDoc (dashboard_name tenant_name base_dashboard_name : String)
    (diff_elements diff_filters : List Elem) (tenant_title : String) : Elem :=
  ([("dashboard", Value.str dashboard_name),
    ("title", Value.str (if tenant_title = ""
      then base_dashboard_name ++ " - " ++ tenant_name else tenant_title)),
    ("extends", Value.list [Value.str base_dashboard_name])]
   ++ (if diff_elements.isEmpty then []
       else [("elements", Value.list (diff_elements.map Value.map))])
   ++ (if diff_filters.isEmpty then []
       else [("filters", Value.list (diff_filters.map Value.map))]))

/-- `generate_extends_dashboard(...)` from `update_tenant_dashboard.py`:
build the dict, wrap flow structures, dump as YAML, ensure the leading
`---` separator, then substitute the model reference (tenant model when
given, the manifest placeholder otherwise). -/
def generate_extends_dashboard (dashboard_name tenant_name base_dashboard_name : String)
    (diff_elements diff_filters : List Elem)
    (tenant_title : String := "") (tenant_model : String := "") : String :=
  let dashboard := extendsDoc dashboard_name tenant_name base_dashboard_name
    diff_elements diff_filters tenant_title
  let dashboard_wrapped := wrap_flow_structures (Value.map dashboard)
  let output := yamlDump [dashboard_wrapped]
  let output2 := if strStartsWith output "---\n" then output else "---\n" ++ output
  if tenant_model = "" then replace_model_name output2
  else replace_model_name output2 tenant_model

/-! ### Base resolution

`find_existing_file` and `detect_base_dashboard_name` read the tenant's
`dashboards/` directory; we model that directory as the association list
of its file names and contents, in listing order. -/

/-- Generic leftmost `re.search`: try a match at every start position
from the left, returning the first success. -/
def searchFrom {α : Type} (f : List Char → Option α) : List Char → Option α
  | [] => f []
  | c :: cs =>
    match f (c :: cs) with
    | some r => some r
    | none => searchFrom f cs

/-- One attempt of `re.search(r"extends:\s*\[(\w+)\]", content)` at the
current position: the literal `extends:`, a whitespace run (`[` is not
whitespace, so the greedy `\s*` consumes exactly the run), `[`, a
non-empty word run (`]` is not a word character), then `]`. -/
def extendsFlowAt (cs : List Char) : Option String :=
  if ("extends:".data).isPrefixOf cs then
    match (cs.drop 8).dropWhile isPyWs with
    | c :: tail =>
      if c = '[' then
        if (tail.takeWhile isWordCh).isEmpty then none
        else
          match tail.dropWhile isWordCh with
          | d :: _ => if d = ']' then some (String.mk (tail.takeWhile isWordCh)) else none
          | [] => none
      else none
    | [] => none
  else none

/-- One attempt of `re.search(r"extends:\s*\n\s+-\s+(\w+)", content)` at
the current position.  After the literal, the leading whitespace run
must contain a newline that is not its last character (`\s*`, the
literal `\n`, then `\s+` must all fit inside the run, and backtracking
on the greedy `\s*` finds such a split exactly in that case), the first
non-whitespace character must be the dash, and the dash must be followed
by at least one whitespace and a non-empty word run. -/
def extendsBlockAt (cs : List Char) : Option String :=
  if ("extends:".data).isPrefixOf cs then
    if ((cs.drop 8).takeWhile isPyWs).dropLast.contains '\n' then
      match (cs.drop 8).dropWhile isPyWs with
      | c :: tail =>
        if c = '-' then
          if (tail.takeWhile isPyWs).isEmpty then none
          else
            if ((tail.dropWhile isPyWs).takeWhile isWordCh).isEmpty then none
            else some (String.mk ((tail.dropWhile isPyWs).takeWhile isWordCh))
        else none
      | [] => none
    else none
  else none

/-- Trailing `\s*$` in `re.MULTILINE`: only whitespace up to the end of
the string or up to a newline. -/
def wsToLineEnd : List Char → Bool
  | [] => true
  | c :: cs => if c = '\n' then true else if isPyWs c then wsToLineEnd cs else false

/-- One attempt of the multiline
`re.search(rf"^-?\s*dashboard:\s+{re.escape(name)}\s*$", ...)` at a line
start: an optional dash, a whitespace run, the literal `dashboard:`, at
least one whitespace, the (escaped, hence literal) name, then `\s*$`. -/
def dashDeclAt (nm : List Char) (cs : List Char) : Bool :=
  (fun cs2 =>
    if ("dashboard:".data).isPrefixOf cs2 then
      if ((cs2.drop 10).takeWhile isPyWs).isEmpty then false
      else
        if nm.isPrefixOf ((cs2.drop 10).dropWhile isPyWs) then
          wsToLineEnd (((cs2.drop 10).dropWhile isPyWs).drop nm.length)
        else false
    else false)
    ((match cs with
      | '-' :: r => r
      | _ => cs).dropWhile isPyWs)

/-- `^` positions of a multiline search strictly after the start: the
position following each newline. -/
def searchAfterNl (p : List Char → Bool) : List Char → Bool
  | [] => false
  | c :: cs => (if c = '\n' then p cs else false) || searchAfterNl p cs

/-- A multiline `re.search` for a `^`-anchored pattern: try the start of
the string and the position after every newline. -/
def searchLines (p : List Char → Bool) (cs : List Char) : Bool :=
  p cs || searchAfterNl p cs

/-- `find_existing_file(dashboards_dir, dashboard_name)`: the exact file
`<name>.dashboard.lookml` when it exists, otherwise the first listed
`.dashboard.lookml` file whose content holds the dashboard-name
declaration. -/
def find_existing_file (fs : List (String × String)) (dashboard_name : String) :
    Option (String × String) :=
  match fs.find? (fun f => f.1 == dashboard_name ++ ".dashboard.lookml") with
  | some f => some f
  | none =>
    fs.find? (fun f =>
      f.1.endsWith ".dashboard.lookml"
      && searchLines (dashDeclAt dashboard_name.data) f.2.data)

/-- `detect_base_dashboard_name(tenant_dashboards_dir, dashboard_name)`:
read the existing file for this dashboard, if any, and extract the
extends target, trying the flow rendering first and the block rendering
second. -/
def detect_base_dashboard_name (fs : List (String × String))
    (dashboard_name : String) : Option String :=
  match find_existing_file fs dashboard_name with
  | none => none
  | some fc =>
    match searchFrom extendsFlowAt fc.2.data with
    | some w => some w
    | none => searchFrom extendsBlockAt fc.2.data

/-- Step 2 of `main` (lines 492-498 of `update_tenant_dashboard.py`):
the explicit `--base_dashboard` argument when truthy, otherwise the name
detected from the existing tenant file. -/
def resolveBase (base_dashboard_arg : Option String)
    (fs : List (String × String)) (dashboard_name : String) : Option String :=
  match base_dashboard_arg with
  | some o =>
    if o = "" then detect_base_dashboard_name fs dashboard_name else some o
  | none => detect_base_dashboard_name fs dashboard_name

/-! ### Lemmas about record operations -/

theorem lookupAssoc_elemPop (e : Elem) (k q : String) :
    lookupAssoc (elemPop e k) q = if k = q then none else lookupAssoc e q := by
  induction e with
  | nil => simp [elemPop, lookupAssoc]
  | cons p rest ih =>
    obtain ⟨k1, v1⟩ := p
    simp only [elemPop, List.filter_cons] at ih ⊢
    by_cases h1 : k1 = k
    · subst h1
      simp only [bne_self_eq_false, Bool.false_eq_true, if_false, ih]
      by_cases h2 : k1 = q
      · subst h2; simp [lookupAssoc]
      · simp [lookupAssoc, h2]
    · simp only [bne_iff_ne, ne_eq, h1, not_false_eq_true, if_true, lookupAssoc, ih]
      by_cases h2 : k1 = q
      · subst h2; simp [Ne.symm h1]
      · simp [h2]

theorem lookupAssoc_elemPop_self (e : Elem) (k : String) :
    lookupAssoc (elemPop e k) k = none := by
  simp [lookupAssoc_elemPop]

theorem lookupAssoc_elemPop_ne (e : Elem) {k q : String} (h : k ≠ q) :
    lookupAssoc (elemPop e k) q = lookupAssoc e q := by
  simp [lookupAssoc_elemPop, h]

theorem elemPop_elemPop_comm (e : Elem) (k k' : String) :
    elemPop (elemPop e k) k' = elemPop (elemPop e k') k := by
  simp only [elemPop, List.filter_filter]
  exact List.filter_congr fun x _ => by rw [Bool.and_comm]

theorem elemPop_idem (e : Elem) (k : String) :
    elemPop (elemPop e k) k = elemPop e k := by
  simp only [elemPop, List.filter_filter]
  exact List.filter_congr fun x _ => by rw [Bool.and_self]

theorem lookupAssoc_condPop_ne (e : Elem) {k q : String} (d : Value) (h : k ≠ q) :
    lookupAssoc (condPop e k d) q = lookupAssoc e q := by
  unfold condPop
  cases lookupAssoc e k with
  | none => rfl
  | some v =>
    by_cases hp : pyEq v d
    · simp [hp, lookupAssoc_elemPop_ne e h]
    · simp [hp]

theorem condPop_elemPop_comm (e : Elem) {k k' : String} (d : Value) (h : k ≠ k') :
    condPop (elemPop e k') k d = elemPop (condPop e k d) k' := by
  unfold condPop
  rw [lookupAssoc_elemPop_ne e (Ne.symm h)]
  cases lookupAssoc e k with
  | none => rfl
  | some v =>
    by_cases hp : pyEq v d
    · simp [hp, elemPop_elemPop_comm]
    · simp [hp]

theorem condPop_comm (e : Elem) {k k' : String} (d d' : Value) (h : k ≠ k') :
    condPop (condPop e k d) k' d' = condPop (condPop e k' d') k d := by
  conv_lhs => rw [condPop]
  conv_rhs => rw [condPop]
  rw [lookupAssoc_condPop_ne e d h, lookupAssoc_condPop_ne e d' (Ne.symm h)]
  cases hq : lookupAssoc e k' with
  | none =>
    cases hk : lookupAssoc e k with
    | none => simp [condPop, hq, hk]
    | some v =>
      by_cases hp : pyEq v d <;> simp [condPop, hp, hq, hk]
  | some w =>
    by_cases hw : pyEq w d'
    · simp only [hw, if_true]
      cases hk : lookupAssoc e k with
      | none => simp [condPop, hq, hk, hw]
      | some v =>
        by_cases hp : pyEq v d
        · simp [condPop, hp, hk, hq, hw, elemPop_elemPop_comm]
        · simp [condPop, hp, hk, hq, hw]
    · simp only [hw, if_false]
      cases hk : lookupAssoc e k with
      | none => simp [condPop, hq, hk, hw]
      | some v =>
        by_cases hp : pyEq v d
        · simp [condPop, hp, hq, hk, hw]
        · simp [condPop, hp, hq, hk, hw]

theorem condPop_idem (e : Elem) (k : String) (d : Value) :
    condPop (condPop e k d) k d = condPop e k d := by
  unfold condPop
  cases hk : lookupAssoc e k with
  | none => simp [hk]
  | some v =>
    by_cases hp : pyEq v d
    · simp [hk, hp, lookupAssoc_elemPop_self]
    · simp [hk, hp]

theorem lookupAssoc_noisySweep_notMem (table : List (String × Value)) (e : Elem)
    {k : String} (h : k ∉ table.map Prod.fst) :
    lookupAssoc (noisySweep table e) k = lookupAssoc e k := by
  induction table generalizing e with
  | nil => rfl
  | cons kd rest ih =>
    simp only [List.map_cons, List.mem_cons, not_or] at h
    simp only [noisySweep, List.foldl_cons]
    rw [show List.foldl (fun acc kd => condPop acc kd.1 kd.2) (condPop e kd.1 kd.2) rest =
      noisySweep rest (condPop e kd.1 kd.2) from rfl, ih _ h.2,
      lookupAssoc_condPop_ne e kd.2 (fun hk => h.1 hk.symm)]

theorem condPop_noisySweep_comm (table : List (String × Value)) (e : Elem)
    {k : String} (d : Value) (h : k ∉ table.map Prod.fst) :
    condPop (noisySweep table e) k d = noisySweep table (condPop e k d) := by
  induction table generalizing e with
  | nil => rfl
  | cons kd rest ih =>
    simp only [List.map_cons, List.mem_cons, not_or] at h
    simp only [noisySweep, List.foldl_cons] at ih ⊢
    rw [ih _ h.2, condPop_comm e d kd.2 (fun hk => h.1 hk)]

theorem elemPop_noisySweep_comm (table : List (String × Value)) (e : Elem)
    {k : String} (h : k ∉ table.map Prod.fst) :
    elemPop (noisySweep table e) k = noisySweep table (elemPop e k) := by
  induction table generalizing e with
  | nil => rfl
  | cons kd rest ih =>
    simp only [List.map_cons, List.mem_cons, not_or] at h
    simp only [noisySweep, List.foldl_cons] at ih ⊢
    rw [ih _ h.2, condPop_elemPop_comm e kd.2 (fun hk => h.1 hk.symm)]

theorem noisySweep_idem (table : List (String × Value)) (e : Elem)
    (h : (table.map Prod.fst).Nodup) :
    noisySweep table (noisySweep table e) = noisySweep table e := by
  induction table generalizing e with
  | nil => rfl
  | cons kd rest ih =>
    simp only [List.map_cons, List.nodup_cons] at h
    show noisySweep rest (condPop (noisySweep rest (condPop e kd.1 kd.2)) kd.1 kd.2) =
      noisySweep rest (condPop e kd.1 kd.2)
    rw [condPop_noisySweep_comm rest _ kd.2 h.1, condPop_idem, ih _ h.2]

theorem lookupAssoc_noisySweep_mem (table : List (String × Value)) (e : Elem)
    {k : String} {d : Value} (hnd : (table.map Prod.fst).Nodup)
    (hmem : (k, d) ∈ table) :
    lookupAssoc (noisySweep table e) k =
      match lookupAssoc e k with
      | some v => if pyEq v d then none else some v
      | none => none := by
  induction table generalizing e with
  | nil => cases hmem
  | cons kd rest ih =>
    obtain ⟨k1, d1⟩ := kd
    simp only [List.map_cons, List.nodup_cons] at hnd
    simp only [noisySweep, List.foldl_cons]
    rw [show ∀ m, List.foldl (fun acc kd => condPop acc kd.1 kd.2) m rest =
      noisySweep rest m from fun _ => rfl]
    rcases List.mem_cons.mp hmem with heq | hrest
    · obtain ⟨hk, hd⟩ := Prod.mk.injEq .. ▸ heq
      cases hk; cases hd
      rw [lookupAssoc_noisySweep_notMem rest _ hnd.1]
      unfold condPop
      cases hv : lookupAssoc e k with
      | none => simp [hv]
      | some v =>
        by_cases hp : pyEq v d
        · simp [hp, lookupAssoc_elemPop_self]
        · simp [hp, hv]
    · have hk1 : k1 ≠ k := by
        intro hk; exact hnd.1 (hk ▸ (List.mem_map.mpr ⟨(k, d), hrest, rfl⟩))
      rw [ih _ hnd.2 hrest, lookupAssoc_condPop_ne e d1 hk1]

theorem foldl_append_filter {α : Type} (p : α → Bool) (l : List α) (acc : List α) :
    l.foldl (fun diff t => if p t then diff ++ [t] else diff) acc = acc ++ l.filter p := by
  induction l generalizing acc with
  | nil => simp
  | cons x xs ih =>
    by_cases h : p x <;> simp [h, ih, List.filter_cons]

theorem popChain3_idem (e : Elem) :
    elemPop (elemPop (elemPop (elemPop (elemPop (elemPop e "id") "slug")
        "preferred_slug") "id") "slug") "preferred_slug"
      = elemPop (elemPop (elemPop e "id") "slug") "preferred_slug" := by
  simp only [elemPop, List.filter_filter]
  refine List.filter_congr fun x _ => ?_
  cases h1 : (x.1 != "id") <;> cases h2 : (x.1 != "slug") <;>
    cases h3 : (x.1 != "preferred_slug") <;> simp [h1, h2, h3]

theorem popChain4_idem (e : Elem) :
    elemPop (elemPop (elemPop (elemPop (elemPop (elemPop (elemPop (elemPop e
        "id") "slug") "preferred_slug") "model") "id") "slug")
        "preferred_slug") "model"
      = elemPop (elemPop (elemPop (elemPop e "id") "slug") "preferred_slug") "model" := by
  simp only [elemPop, List.filter_filter]
  refine List.filter_congr fun x _ => ?_
  cases h1 : (x.1 != "id") <;> cases h2 : (x.1 != "slug") <;>
    cases h3 : (x.1 != "preferred_slug") <;> cases h4 : (x.1 != "model") <;>
    simp [h1, h2, h3, h4]

/-! ### Claim theorems for the Diff Engine and Normalizer -/

/-- C3: for every record and every (key, default) pair of the fixed
noisy-default table, `normalize_element` removes the key exactly when it
is present with a value Python-equal to the listed default; a present
key with a different value keeps its original value, and an absent key
stays absent. -/
theorem normalize_element_noisy_defaults (e : Elem) (rm : Bool) (k : String) (d : Value)
    (hmem : (k, d) ∈ noisyDefaults) :
    lookupAssoc (normalize_element e rm) k =
      match lookupAssoc e k with
      | some v => if pyEq v d then none else some v
      | none => none := by
  have hall : ∀ kd ∈ noisyDefaults,
      kd.1 ≠ "id" ∧ kd.1 ≠ "slug" ∧ kd.1 ≠ "preferred_slug" ∧ kd.1 ≠ "model" := by decide
  have hvol := hall (k, d) hmem
  have hnd : (noisyDefaults.map Prod.fst).Nodup := by decide
  cases rm with
  | false =>
    show lookupAssoc (noisySweep noisyDefaults
      (elemPop (elemPop (elemPop e "id") "slug") "preferred_slug")) k = _
    rw [lookupAssoc_noisySweep_mem _ _ hnd hmem,
      lookupAssoc_elemPop_ne _ (Ne.symm hvol.2.2.1),
      lookupAssoc_elemPop_ne _ (Ne.symm hvol.2.1),
      lookupAssoc_elemPop_ne _ (Ne.symm hvol.1)]
  | true =>
    show lookupAssoc (noisySweep noisyDefaults
      (elemPop (elemPop (elemPop (elemPop e "id") "slug") "preferred_slug") "model")) k = _
    rw [lookupAssoc_noisySweep_mem _ _ hnd hmem,
      lookupAssoc_elemPop_ne _ (Ne.symm hvol.2.2.2),
      lookupAssoc_elemPop_ne _ (Ne.symm hvol.2.2.1),
      lookupAssoc_elemPop_ne _ (Ne.symm hvol.2.1),
      lookupAssoc_elemPop_ne _ (Ne.symm hvol.1)]

/-- Witness for C3 at concrete inputs: `show_view_names: false` is
stripped, while `show_view_names: true` is preserved. -/
theorem normalize_element_noisy_defaults_witness :
    (("show_view_names", Value.bool false) ∈ noisyDefaults)
    ∧ lookupAssoc (normalize_element [("show_view_names", Value.bool false)] false)
        "show_view_names" = none
    ∧ lookupAssoc (normalize_element [("show_view_names", Value.bool true)] false)
        "show_view_names" = some (Value.bool true) := by
  refine ⟨List.Mem.head _, ?_, ?_⟩
  · have h := normalize_element_noisy_defaults [("show_view_names", Value.bool false)]
      false "show_view_names" (Value.bool false) (List.Mem.head _)
    simpa using h
  · have h := normalize_element_noisy_defaults [("show_view_names", Value.bool true)]
      false "show_view_names" (Value.bool false) (List.Mem.head _)
    simpa using h

/-- C4: `normalize_element` is idempotent for either value of the
remove-model flag: normalizing an already-normalized record is a no-op. -/
theorem normalize_element_idempotent (e : Elem) (rm : Bool) :
    normalize_element (normalize_element e rm) rm = normalize_element e rm := by
  have hnd : (noisyDefaults.map Prod.fst).Nodup := by decide
  have hid : "id" ∉ noisyDefaults.map Prod.fst := by decide
  have hslug : "slug" ∉ noisyDefaults.map Prod.fst := by decide
  have hpref : "preferred_slug" ∉ noisyDefaults.map Prod.fst := by decide
  have hmodel : "model" ∉ noisyDefaults.map Prod.fst := by decide
  cases rm with
  | false =>
    show noisySweep noisyDefaults
        (elemPop (elemPop (elemPop (noisySweep noisyDefaults
          (elemPop (elemPop (elemPop e "id") "slug") "preferred_slug"))
          "id") "slug") "preferred_slug")
      = noisySweep noisyDefaults (elemPop (elemPop (elemPop e "id") "slug") "preferred_slug")
    rw [elemPop_noisySweep_comm _ _ hid, elemPop_noisySweep_comm _ _ hslug,
      elemPop_noisySweep_comm _ _ hpref, popChain3_idem, noisySweep_idem _ _ hnd]
  | true =>
    show noisySweep noisyDefaults
        (elemPop (elemPop (elemPop (elemPop (noisySweep noisyDefaults
          (elemPop (elemPop (elemPop (elemPop e "id") "slug") "preferred_slug") "model"))
          "id") "slug") "preferred_slug") "model")
      = noisySweep noisyDefaults
          (elemPop (elemPop (elemPop (elemPop e "id") "slug") "preferred_slug") "model")
    rw [elemPop_noisySweep_comm _ _ hid, elemPop_noisySweep_comm _ _ hslug,
      elemPop_noisySweep_comm _ _ hpref, elemPop_noisySweep_comm _ _ hmodel,
      popChain4_idem, noisySweep_idem _ _ hnd]

/-- C1: `compare_elements` returns exactly the tenant elements, in the
tenant list's original order and with their original (non-normalized)
content, whose name misses the truthy-name-indexed base lookup (NEW) or
whose normalization (model removed on both sides) is not Python-equal to
the normalization of the matched base element (MODIFIED); tenant
elements whose normalization equals the base one are dropped
(INHERITED). -/
theorem compare_elements_diff_spec (tenant_elements base_elements : List Elem) :
    compare_elements tenant_elements base_elements =
      tenant_elements.filter (fun t =>
        match lookupIdx (buildElemIdx base_elements) (getName t) with
        | none => true
        | some b => !(pyEqElem (normalize_element t true) (normalize_element b true))) := by
  show tenant_elements.foldl
      (fun diff t =>
        match lookupIdx (buildElemIdx base_elements) (getName t) with
        | none => diff ++ [t]
        | some b =>
          if pyEqElem (normalize_element t true) (normalize_element b true) then diff
          else diff ++ [t]) []
    = _
  have hfun : (fun (diff : List Elem) (t : Elem) =>
      match lookupIdx (buildElemIdx base_elements) (getName t) with
      | none => diff ++ [t]
      | some b =>
        if pyEqElem (normalize_element t true) (normalize_element b true) then diff
        else diff ++ [t])
    = (fun diff t =>
        if (match lookupIdx (buildElemIdx base_elements) (getName t) with
            | none => true
            | some b => !(pyEqElem (normalize_element t true) (normalize_element b true)))
        then diff ++ [t] else diff) := by
    funext diff t
    cases lookupIdx (buildElemIdx base_elements) (getName t) with
    | none => simp
    | some b =>
      by_cases h : pyEqElem (normalize_element t true) (normalize_element b true) <;> simp [h]
  rw [hfun, foldl_append_filter]
  simp

/-- C10 counterexample: `compare_filters` and `compare_elements` are not
the same function.  On a one-entry list whose record has no `name`, the
element variant skips the falsy name while indexing, classifies the
tenant entry as NEW and keeps it; the filter variant indexes the falsy
name, finds the entry inherited and drops it. -/
theorem compare_filters_vs_elements_cex :
    compare_filters [([] : Elem)] [([] : Elem)] ≠
      compare_elements [([] : Elem)] [([] : Elem)] := by
  intro h
  have hl : (0 : Nat) = 1 := congrArg List.length h
  exact absurd hl (by decide)

/-- C10 (amended): `compare_filters` runs the identical per-entry loop
as `compare_elements`; whenever every base entry has a truthy name — the
only case in which the two base indexings differ — the two functions
return equal results. -/
theorem compare_filters_matches_compare_elements (tenant base : List Elem)
    (h : ∀ f ∈ base, truthy (getName f) = true) :
    compare_filters tenant base = compare_elements tenant base := by
  have hidx : ∀ (init : List (Value × Elem)) (l : List Elem),
      (∀ f ∈ l, truthy (getName f) = true) →
      List.foldl (fun idx f => insertIdx idx (getName f) f) init l
        = List.foldl
            (fun idx el => if truthy (getName el) then insertIdx idx (getName el) el else idx)
            init l := by
    intro init l
    induction l generalizing init with
    | nil => intro _; rfl
    | cons f rest ih =>
      intro hl
      simp only [List.foldl_cons, hl f (List.mem_cons_self f rest), if_true]
      exact ih _ (fun g hg => hl g (List.mem_cons_of_mem f hg))
  simp only [compare_filters, compare_elements]
  rw [hidx [] base h]

/-- Witness for C10's amended theorem at concrete lists. -/
theorem compare_filters_matches_compare_elements_witness :
    compare_filters [[("name", Value.str "f1"), ("label", Value.str "T")]]
        [[("name", Value.str "f1")]]
      = compare_elements [[("name", Value.str "f1"), ("label", Value.str "T")]]
        [[("name", Value.str "f1")]] :=
  compare_filters_matches_compare_elements _ _ (by decide)

/-- C2 counterexample: a 500 response — non-200 and not "not found" —
does not abort the run: the fetch helper swallows the error and `main`
generates the tenant dashboard as standalone. -/
theorem non200_fetch_not_fatal_cex :
    get_base_dashboard_from_github 500 "Internal Server Error" = none
    ∧ extendCaseDispatch 500 "Internal Server Error" = ExtendOutcome.standaloneFallback
    ∧ extendCaseDispatch 500 "Internal Server Error" ≠ ExtendOutcome.abortRun := by
  refine ⟨rfl, rfl, ?_⟩
  intro h
  exact ExtendOutcome.noConfusion h

/-- C2 (amended): every non-200 fetch response — 404 or any other
status — is recovered identically: the fetch returns `None` and the run
falls back to standalone generation instead of aborting. -/
theorem non200_fetch_falls_back_standalone (status : Nat) (body : String)
    (h : status ≠ 200) :
    get_base_dashboard_from_github status body = none
    ∧ extendCaseDispatch status body = ExtendOutcome.standaloneFallback := by
  have hf : get_base_dashboard_from_github status body = none := by
    unfold get_base_dashboard_from_github
    by_cases h4 : status = 404 <;> simp [h, h4]
  exact ⟨hf, by unfold extendCaseDispatch; rw [hf]⟩

/-- Witness for C2's amended theorem at a concrete non-200 status. -/
theorem non200_fetch_falls_back_standalone_witness :
    get_base_dashboard_from_github 503 "unavailable" = none
    ∧ extendCaseDispatch 503 "unavailable" = ExtendOutcome.standaloneFallback :=
  non200_fetch_falls_back_standalone 503 "unavailable" (by decide)

/-! ### Text preprocessor lemmas and claims -/

theorem takeWhile_append_all {α : Type} (p : α → Bool) (w rest : List α)
    (hw : ∀ c ∈ w, p c = true)
    (hr : ∀ c, rest.head? = some c → p c = false) :
    (w ++ rest).takeWhile p = w ∧ (w ++ rest).dropWhile p = rest := by
  induction w with
  | nil =>
    simp only [List.nil_append]
    cases rest with
    | nil => exact ⟨rfl, rfl⟩
    | cons c cs =>
      have hc := hr c rfl
      simp [List.takeWhile_cons, List.dropWhile_cons, hc]
  | cons a w ih =>
    have ha := hw a (List.mem_cons_self _ _)
    have ih2 := ih fun c hc => hw c (List.mem_cons_of_mem _ hc)
    simp [List.takeWhile_cons, List.dropWhile_cons, ha, ih2.1, ih2.2]

theorem keyThenColon_iff (key cs : List Char) :
    keyThenColon key cs = true ↔
      ∃ t r, (∀ c ∈ t, isPyWs c = true) ∧ cs = key ++ t ++ ':' :: r := by
  constructor
  · intro h
    unfold keyThenColon at h
    rw [Bool.and_eq_true] at h
    obtain ⟨h1, h2⟩ := h
    obtain ⟨rest, hrest⟩ := List.isPrefixOf_iff_prefix.mp h1
    have hdrop : cs.drop key.length = rest := by
      rw [← hrest, List.drop_left]
    rw [hdrop] at h2
    cases hdw : rest.dropWhile isPyWs with
    | nil => rw [hdw] at h2; simp at h2
    | cons d r =>
      rw [hdw] at h2
      simp only [List.head?_cons, Option.some.injEq, beq_iff_eq] at h2
      subst h2
      refine ⟨rest.takeWhile isPyWs, r, fun c hc => List.mem_takeWhile_imp hc, ?_⟩
      rw [← hrest, List.append_assoc]
      congr 1
      rw [← hdw, List.takeWhile_append_dropWhile]
  · rintro ⟨t, r, ht, rfl⟩
    unfold keyThenColon
    rw [Bool.and_eq_true]
    have hsplit := takeWhile_append_all isPyWs t (':' :: r) ht
      (fun c hc => by
        simp only [List.head?_cons, Option.some.injEq] at hc
        subst hc; decide)
    constructor
    · exact List.isPrefixOf_iff_prefix.mpr ⟨t ++ ':' :: r, by simp [List.append_assoc]⟩
    · rw [List.append_assoc, List.drop_left, hsplit.2]
      simp

theorem matchesVolatile_iff (l : List Char) :
    matchesVolatile l = true ↔ VolatileLine l := by
  constructor
  · intro h
    simp only [matchesVolatile, Bool.and_eq_true, Bool.or_eq_true,
      decide_eq_true_eq] at h
    obtain ⟨⟨h2, h4⟩, hkey⟩ := h
    have hsplit : l = l.takeWhile isPyWs ++ l.dropWhile isPyWs :=
      (List.takeWhile_append_dropWhile ..).symm
    have hws : ∀ c ∈ l.takeWhile isPyWs, isPyWs c = true :=
      fun c hc => List.mem_takeWhile_imp hc
    rcases hkey with (hk | hk) | hk
    · obtain ⟨t, r, ht, heq⟩ := (keyThenColon_iff _ _).mp hk
      exact ⟨l.takeWhile isPyWs, t, r, "id", Or.inl rfl, hws, h2, h4, ht,
        by conv_lhs => rw [hsplit, heq]
           simp [List.append_assoc]⟩
    · obtain ⟨t, r, ht, heq⟩ := (keyThenColon_iff _ _).mp hk
      exact ⟨l.takeWhile isPyWs, t, r, "slug", Or.inr (Or.inl rfl), hws, h2, h4, ht,
        by conv_lhs => rw [hsplit, heq]
           simp [List.append_assoc]⟩
    · obtain ⟨t, r, ht, heq⟩ := (keyThenColon_iff _ _).mp hk
      exact ⟨l.takeWhile isPyWs, t, r, "preferred_slug", Or.inr (Or.inr rfl), hws,
        h2, h4, ht, by conv_lhs => rw [hsplit, heq]
                       simp [List.append_assoc]⟩
  · rintro ⟨w, t, r, k, hk, hw, h2, h4, ht, rfl⟩
    have hhead : ∀ c, (k.data ++ t ++ ':' :: r).head? = some c → isPyWs c = false := by
      intro c hc
      rcases hk with rfl | rfl | rfl
      · rw [show ("id".data ++ t ++ ':' :: r).head? = some 'i' from rfl] at hc
        injection hc with hc
        subst hc; decide
      · rw [show ("slug".data ++ t ++ ':' :: r).head? = some 's' from rfl] at hc
        injection hc with hc
        subst hc; decide
      · rw [show ("preferred_slug".data ++ t ++ ':' :: r).head? = some 'p' from rfl] at hc
        injection hc with hc
        subst hc; decide
    have hsplit := takeWhile_append_all isPyWs w (k.data ++ t ++ ':' :: r) hw hhead
    simp only [List.append_assoc] at hsplit
    simp only [matchesVolatile, Bool.and_eq_true, Bool.or_eq_true, decide_eq_true_eq,
      List.append_assoc]
    refine ⟨⟨?_, ?_⟩, ?_⟩
    · rw [hsplit.1]; exact h2
    · rw [hsplit.1]; exact h4
    · rw [hsplit.2]
      rcases hk with rfl | rfl | rfl
      · exact Or.inl (Or.inl ((keyThenColon_iff _ _).mpr
          ⟨t, r, ht, (List.append_assoc _ _ _).symm⟩))
      · exact Or.inl (Or.inr ((keyThenColon_iff _ _).mpr
          ⟨t, r, ht, (List.append_assoc _ _ _).symm⟩))
      · exact Or.inr ((keyThenColon_iff _ _).mpr
          ⟨t, r, ht, (List.append_assoc _ _ _).symm⟩)

/-- C6 counterexample: a line whose indentation is two tab characters —
zero leading spaces — is still removed by the preprocessor, because the
regex class `\\s` also matches tabs; the claim's "2-4 leading spaces"
does not describe the removal set exactly. -/
theorem clean_lookml_leading_spaces_cex :
    clean_lookml "\t\tid: 42" = ""
    ∧ ("\t\tid: 42" : String) ≠ ""
    ∧ (("\t\tid: 42" : String).data.takeWhile (fun c => c == ' ')).length = 0 := by
  refine ⟨rfl, by decide, rfl⟩

/-- C6 (amended): `clean_lookml` splits the text into lines, removes
exactly the lines with 2-4 leading whitespace characters followed by
`id`, `slug` or `preferred_slug`, optional whitespace and a colon —
deeper-indented occurrences nested inside elements are untouched — and
preserves all other lines unchanged and in order;
`remove_id_and_slug` of `update_dashboard.py` is the same function. -/
theorem clean_lookml_spec :
    (∀ s : String, clean_lookml s =
        String.mk (joinLinesCh ((splitLinesCh s.data).filter (fun l => !matchesVolatile l))))
    ∧ (∀ l : List Char, matchesVolatile l = true ↔ VolatileLine l)
    ∧ (∀ s : String, remove_id_and_slug s = clean_lookml s) := by
  refine ⟨?_, matchesVolatile_iff, fun s => rfl⟩
  intro s
  show String.mk (joinLinesCh ((splitLinesCh s.data).foldl
    (fun acc line => if matchesVolatile line then acc else acc ++ [line]) [])) = _
  congr 1
  have hfun : (fun (acc : List (List Char)) line =>
      if matchesVolatile line then acc else acc ++ [line])
    = (fun acc line => if !matchesVolatile line then acc ++ [line] else acc) := by
    funext acc line
    by_cases h : matchesVolatile line <;> simp [h]
  rw [hfun, foldl_append_filter]
  simp

/-! ### Model-reference substitution (C5) -/

theorem subModelAux_nil (repl : List Char) : subModelAux repl [] = [] := by
  unfold subModelAux
  rfl

theorem subModelAux_step (repl : List Char) (c : Char) (cs g rest : List Char)
    (h : tryModelMatch (c :: cs) = some (g, rest)) :
    subModelAux repl (c :: cs) = g ++ repl ++ subModelAux repl rest := by
  conv_lhs => unfold subModelAux
  split
  · rename_i gr heq
    rw [h] at heq
    injection heq with heq2
    subst heq2
    simp [List.append_assoc]
  · rename_i heq
    rw [h] at heq
    simp at heq

theorem subModelAux_skip (repl : List Char) (c : Char) (cs : List Char)
    (h : tryModelMatch (c :: cs) = none) :
    subModelAux repl (c :: cs) = c :: subModelAux repl cs := by
  conv_lhs => unfold subModelAux
  split
  · rename_i gr heq
    rw [h] at heq
    simp at heq
  · rfl

theorem tok_not_ws (c : Char) (h : isModelTokCh c = true) : isPyWs c = false := by
  cases hws : isPyWs c
  · rfl
  · exfalso
    have hc : ((((c = ' ' ∨ c = '\t') ∨ c = '\n') ∨ c = '\r')
        ∨ c = Char.ofNat 11) ∨ c = Char.ofNat 12 := by
      simpa [isPyWs, decide_eq_true_eq] using hws
    rcases hc with ((((rfl | rfl) | rfl) | rfl) | rfl) | rfl <;> exact absurd h (by decide)

theorem tryModelMatch_quoted (s : List Char) (hs : ∀ c ∈ s, c ≠ '"') :
    tryModelMatch ("model: ".data ++ '"' :: s ++ ['"']) = some ("model: ".data, []) := by
  have h1 : "model: ".data ++ '"' :: s ++ ['"']
      = 'm' :: 'o' :: 'd' :: 'e' :: 'l' :: ':' :: ' ' :: '"' :: (s ++ ['"']) := by
    simp
  rw [h1]
  have h3 : (s ++ ['"']).dropWhile (fun d => d != '"') = ['"'] := by
    have := takeWhile_append_all (fun d => d != '"') s ['"']
      (fun c hc => by simp [bne_iff_ne, hs c hc])
      (fun c hc => by
        simp only [List.head?_cons, Option.some.injEq] at hc
        subst hc; simp)
    exact this.2
  show (match (s ++ ['"']).dropWhile (fun d => d != '"') with
        | _ :: rest2 => some ("model: ".data, rest2)
        | [] => none) = some ("model: ".data, [])
  rw [h3]

theorem tryModelMatch_token (w : List Char) (hw : w ≠ [])
    (hall : ∀ c ∈ w, isModelTokCh c = true) :
    tryModelMatch ("model: ".data ++ w) = some ("model: ".data, []) := by
  cases w with
  | nil => exact absurd rfl hw
  | cons c tail =>
    have htc := hall c (List.mem_cons_self _ _)
    have hcw : isPyWs c = false := tok_not_ws c htc
    have h1 : "model: ".data ++ c :: tail
        = 'm' :: 'o' :: 'd' :: 'e' :: 'l' :: ':' :: ' ' :: c :: tail := by simp
    rw [h1]
    have hdw : (' ' :: c :: tail).dropWhile isPyWs = c :: tail := by
      rw [List.dropWhile_cons, if_pos (show isPyWs ' ' = true by decide),
        List.dropWhile_cons, if_neg (show ¬ isPyWs c = true by simp [hcw])]
    have htw : (' ' :: c :: tail).takeWhile isPyWs = [' '] := by
      rw [List.takeWhile_cons, if_pos (show isPyWs ' ' = true by decide),
        List.takeWhile_cons, if_neg (show ¬ isPyWs c = true by simp [hcw])]
    have hq : ¬ c = '"' := by
      intro hc
      subst hc
      exact absurd htc (by decide)
    have h5 : (c :: tail).dropWhile isModelTokCh = [] := by
      rw [List.dropWhile_eq_nil_iff]
      exact fun a ha => hall a ha
    show (match (' ' :: c :: tail).dropWhile isPyWs with
          | c2 :: tail2 =>
            if c2 = '"' then
              match tail2.dropWhile (fun d => d != '"') with
              | _ :: rest2 =>
                some ("model:".data ++ (' ' :: c :: tail).takeWhile isPyWs, rest2)
              | [] => none
            else if isModelTokCh c2 then
              some ("model:".data ++ (' ' :: c :: tail).takeWhile isPyWs,
                (c2 :: tail2).dropWhile isModelTokCh)
            else none
          | [] => none) = some ("model: ".data, [])
    rw [hdw]
    show (if c = '"' then
            match tail.dropWhile (fun d => d != '"') with
            | _ :: rest2 =>
              some ("model:".data ++ (' ' :: c :: tail).takeWhile isPyWs, rest2)
            | [] => none
          else if isModelTokCh c then
            some ("model:".data ++ (' ' :: c :: tail).takeWhile isPyWs,
              (c :: tail).dropWhile isModelTokCh)
          else none) = some ("model: ".data, [])
    rw [if_neg hq, if_pos htc, htw, h5]
    rfl

theorem subModelAux_whole (repl : List Char) (cs g : List Char)
    (h : tryModelMatch cs = some (g, [])) (hne : cs ≠ []) :
    subModelAux repl cs = g ++ repl := by
  cases cs with
  | nil => exact absurd rfl hne
  | cons c cs2 =>
    rw [subModelAux_step repl c cs2 g [] h, subModelAux_nil]
    simp

/-- The tenant-script `replace_model_name`
(`update_tenant_dashboard.py`) rewrites a model reference in each of its
three source forms — quoted string, bare token, templated placeholder —
to the one canonical form chosen by the target: the target verbatim when
it is the `@`-brace placeholder, the double-quoted target otherwise. -/
theorem replace_model_name_three_forms (target s w : String)
    (hs : ∀ c ∈ s.data, c ≠ '"')
    (hw1 : w.data ≠ []) (hw2 : ∀ c ∈ w.data, isModelTokCh c = true) :
    replace_model_name ("model: \"" ++ s ++ "\"") target
        = "model: " ++ canonicalModelTarget target
    ∧ replace_model_name ("model: " ++ w) target
        = "model: " ++ canonicalModelTarget target
    ∧ replace_model_name ("model: " ++ modelPlaceholder) target
        = "model: " ++ canonicalModelTarget target := by
  have htok : ∀ (u : String), u.data ≠ [] → (∀ c ∈ u.data, isModelTokCh c = true) →
      replace_model_name ("model: " ++ u) target
        = "model: " ++ canonicalModelTarget target := by
    intro u hu1 hu2
    unfold replace_model_name
    have hdata : ("model: " ++ u).data = "model: ".data ++ u.data :=
      String.data_append _ _
    rw [hdata, subModelAux_whole _ _ _ (tryModelMatch_token u.data hu1 hu2) (by simp)]
    rfl
  refine ⟨?_, htok w hw1 hw2, htok modelPlaceholder (by decide) (by decide)⟩
  unfold replace_model_name
  have hdata : ("model: \"" ++ s ++ "\"").data
      = "model: ".data ++ '"' :: s.data ++ ['"'] := by
    rw [String.data_append, String.data_append]
    rfl
  rw [hdata, subModelAux_whole _ _ _ (tryModelMatch_quoted s.data hs) (by simp)]
  rfl

/-! ### The base-script model substitution (C5) -/

theorem subQuotedAux_nil : subQuotedAux [] = [] := by
  unfold subQuotedAux
  rfl

theorem subQuotedAux_step (c : Char) (cs g rest : List Char)
    (h : tryQuotedMatch (c :: cs) = some (g, rest)) :
    subQuotedAux (c :: cs) = g ++ quotedPlaceholder ++ subQuotedAux rest := by
  conv_lhs => unfold subQuotedAux
  split
  · rename_i gr heq
    rw [h] at heq
    injection heq with heq2
    subst heq2
    simp [List.append_assoc]
  · rename_i heq
    rw [h] at heq
    simp at heq

theorem subQuotedAux_skip (c : Char) (cs : List Char)
    (h : tryQuotedMatch (c :: cs) = none) :
    subQuotedAux (c :: cs) = c :: subQuotedAux cs := by
  conv_lhs => unfold subQuotedAux
  split
  · rename_i gr heq
    rw [h] at heq
    simp at heq
  · rfl

theorem subBareAux_nil : subBareAux [] = [] := by
  unfold subBareAux
  rfl

theorem subBareAux_step (c : Char) (cs g rest : List Char)
    (h : tryBareMatch (c :: cs) = some (g, rest)) :
    subBareAux (c :: cs) = g ++ quotedPlaceholder ++ subBareAux rest := by
  conv_lhs => unfold subBareAux
  split
  · rename_i gr heq
    rw [h] at heq
    injection heq with heq2
    subst heq2
    simp [List.append_assoc]
  · rename_i heq
    rw [h] at heq
    simp at heq

theorem subBareAux_skip (c : Char) (cs : List Char)
    (h : tryBareMatch (c :: cs) = none) :
    subBareAux (c :: cs) = c :: subBareAux cs := by
  conv_lhs => unfold subBareAux
  split
  · rename_i gr heq
    rw [h] at heq
    simp at heq
  · rfl

theorem subQuotedAux_id (cs : List Char)
    (h : ∀ s, s <:+ cs → tryQuotedMatch s = none) : subQuotedAux cs = cs := by
  induction cs with
  | nil => exact subQuotedAux_nil
  | cons c cs ih =>
    rw [subQuotedAux_skip c cs (h _ (List.suffix_refl _)),
      ih fun s hs => h s (hs.trans (List.suffix_cons c cs))]

theorem subBareAux_id (cs : List Char)
    (h : ∀ s, s <:+ cs → tryBareMatch s = none) : subBareAux cs = cs := by
  induction cs with
  | nil => exact subBareAux_nil
  | cons c cs ih =>
    rw [subBareAux_skip c cs (h _ (List.suffix_refl _)),
      ih fun s hs => h s (hs.trans (List.suffix_cons c cs))]

theorem subQuotedAux_whole (cs g : List Char)
    (h : tryQuotedMatch cs = some (g, [])) (hne : cs ≠ []) :
    subQuotedAux cs = g ++ quotedPlaceholder := by
  cases cs with
  | nil => exact absurd rfl hne
  | cons c cs2 =>
    rw [subQuotedAux_step c cs2 g [] h, subQuotedAux_nil]
    simp

theorem subBareAux_whole (cs g : List Char)
    (h : tryBareMatch cs = some (g, [])) (hne : cs ≠ []) :
    subBareAux cs = g ++ quotedPlaceholder := by
  cases cs with
  | nil => exact absurd rfl hne
  | cons c cs2 =>
    rw [subBareAux_step c cs2 g [] h, subBareAux_nil]
    simp

theorem tryQuotedMatch_mem_quote (s : List Char) (r : List Char × List Char)
    (h : tryQuotedMatch s = some r) : '"' ∈ s := by
  unfold tryQuotedMatch at h
  split at h
  case isFalse => simp at h
  case isTrue hpre =>
    split at h
    case h_2 => simp at h
    case h_1 c tail heq =>
      split at h
      case isFalse => simp at h
      case isTrue hc =>
        subst hc
        have h1 : '"' ∈ (s.drop 6).dropWhile isPyWs := by
          rw [heq]
          exact List.mem_cons_self _ _
        exact (List.drop_sublist 6 s).mem ((List.dropWhile_sublist isPyWs).mem h1)

theorem tryQuotedMatch_form (s : List Char) (hs : ∀ c ∈ s, c ≠ '"') :
    tryQuotedMatch ("model: ".data ++ '"' :: s ++ ['"']) = some ("model: ".data, []) := by
  have h1 : "model: ".data ++ '"' :: s ++ ['"']
      = 'm' :: 'o' :: 'd' :: 'e' :: 'l' :: ':' :: ' ' :: '"' :: (s ++ ['"']) := by
    simp
  rw [h1]
  have h3 : (s ++ ['"']).dropWhile (fun d => d != '"') = ['"'] := by
    have := takeWhile_append_all (fun d => d != '"') s ['"']
      (fun c hc => by simp [bne_iff_ne, hs c hc])
      (fun c hc => by
        simp only [List.head?_cons, Option.some.injEq] at hc
        subst hc; simp)
    exact this.2
  show (match (s ++ ['"']).dropWhile (fun d => d != '"') with
        | _ :: rest2 => some ("model: ".data, rest2)
        | [] => none) = some ("model: ".data, [])
  rw [h3]

theorem tryBareMatch_form (w : List Char) (hw1 : w ≠ [])
    (hw2 : ∀ c ∈ w, isPyWs c = false)
    (hq : ∀ c, w.head? = some c → ¬ (c = '"' ∨ c = '@')) :
    tryBareMatch ("model: ".data ++ w) = some ("model: ".data, []) := by
  cases w with
  | nil => exact absurd rfl hw1
  | cons c0 wt =>
    have hc0ws : isPyWs c0 = false := hw2 c0 (List.mem_cons_self _ _)
    have h1 : "model: ".data ++ c0 :: wt
        = 'm' :: 'o' :: 'd' :: 'e' :: 'l' :: ':' :: ' ' :: c0 :: wt := by simp
    rw [h1]
    have hdw : (' ' :: c0 :: wt).dropWhile isPyWs = c0 :: wt := by
      rw [List.dropWhile_cons, if_pos (show isPyWs ' ' = true by decide),
        List.dropWhile_cons, if_neg (show ¬ isPyWs c0 = true by simp [hc0ws])]
    have htw : (' ' :: c0 :: wt).takeWhile isPyWs = [' '] := by
      rw [List.takeWhile_cons, if_pos (show isPyWs ' ' = true by decide),
        List.takeWhile_cons, if_neg (show ¬ isPyWs c0 = true by simp [hc0ws])]
    have hdb : (c0 :: wt).dropWhile (fun d => !isPyWs d) = [] := by
      rw [List.dropWhile_eq_nil_iff]
      intro a ha
      simp [hw2 a ha]
    show (match (' ' :: c0 :: wt).dropWhile isPyWs with
          | c :: tail =>
            if c = '"' ∨ c = '@' then none
            else
              some ("model:".data ++ (' ' :: c0 :: wt).takeWhile isPyWs,
                (c :: tail).dropWhile (fun d => !isPyWs d))
          | [] => none) = some ("model: ".data, [])
    rw [hdw]
    show (if c0 = '"' ∨ c0 = '@' then none
          else
            some ("model:".data ++ (' ' :: c0 :: wt).takeWhile isPyWs,
              (c0 :: wt).dropWhile (fun d => !isPyWs d))) = some ("model: ".data, [])
    rw [if_neg (hq c0 rfl), htw, hdb]
    rfl

theorem ud_replace_quoted (s : String) (hs : ∀ c ∈ s.data, c ≠ '"') :
    UpdateDashboard.replace_model_name ("model: \"" ++ s ++ "\"")
      = "model: " ++ "\"" ++ modelPlaceholder ++ "\"" := by
  unfold UpdateDashboard.replace_model_name
  have hdata : ("model: \"" ++ s ++ "\"").data
      = "model: ".data ++ '"' :: s.data ++ ['"'] := by
    rw [String.data_append, String.data_append]
    rfl
  rw [hdata, subQuotedAux_whole _ _ (tryQuotedMatch_form s.data hs) (by simp)]
  have hbare : subBareAux ("model: ".data ++ quotedPlaceholder)
      = "model: ".data ++ quotedPlaceholder := by
    apply subBareAux_id
    intro u hu
    have hmem : u ∈ ("model: ".data ++ quotedPlaceholder).tails := (List.mem_tails _ _).mpr hu
    exact (by decide :
      ∀ u ∈ ("model: ".data ++ quotedPlaceholder).tails, tryBareMatch u = none) u hmem
  rw [hbare]
  rfl

theorem ud_replace_bare (w : String) (hw1 : w.data ≠ [])
    (hw2 : ∀ c ∈ w.data, isPyWs c = false ∧ c ≠ '"')
    (hq : ∀ c, w.data.head? = some c → ¬ (c = '"' ∨ c = '@')) :
    UpdateDashboard.replace_model_name ("model: " ++ w)
      = "model: " ++ "\"" ++ modelPlaceholder ++ "\"" := by
  unfold UpdateDashboard.replace_model_name
  have hdata : ("model: " ++ w).data = "model: ".data ++ w.data :=
    String.data_append _ _
  rw [hdata]
  have hquoted : subQuotedAux ("model: ".data ++ w.data)
      = "model: ".data ++ w.data := by
    apply subQuotedAux_id
    intro u hu
    cases hf : tryQuotedMatch u with
    | none => rfl
    | some r =>
      have hmem : '"' ∈ "model: ".data ++ w.data :=
        hu.subset (tryQuotedMatch_mem_quote u r hf)
      rcases List.mem_append.mp hmem with h2 | h2
      · exact absurd h2 (by decide)
      · exact absurd rfl (hw2 '"' h2).2
  rw [hquoted,
    subBareAux_whole _ _ (tryBareMatch_form w.data hw1 (fun c hc => (hw2 c hc).1) hq)
      (by simp)]
  rfl

theorem ud_replace_placeholder :
    UpdateDashboard.replace_model_name ("model: " ++ modelPlaceholder)
      = "model: " ++ modelPlaceholder := by
  unfold UpdateDashboard.replace_model_name
  have hq : subQuotedAux ("model: " ++ modelPlaceholder).data
      = ("model: " ++ modelPlaceholder).data := by
    apply subQuotedAux_id
    intro u hu
    have hmem : u ∈ ("model: " ++ modelPlaceholder).data.tails := (List.mem_tails _ _).mpr hu
    exact (by decide :
      ∀ u ∈ ("model: " ++ modelPlaceholder).data.tails, tryQuotedMatch u = none) u hmem
  have hb : subBareAux ("model: " ++ modelPlaceholder).data
      = ("model: " ++ modelPlaceholder).data := by
    apply subBareAux_id
    intro u hu
    have hmem : u ∈ ("model: " ++ modelPlaceholder).data.tails := (List.mem_tails _ _).mpr hu
    exact (by decide :
      ∀ u ∈ ("model: " ++ modelPlaceholder).data.tails, tryBareMatch u = none) u hmem
  rw [hq, hb]

/-- C5 counterexample: in `update_dashboard.py`'s `replace_model_name`,
the quoted form `model: "somemodel"` is rewritten to the QUOTED
placeholder while the templated form `model: @\x7bmodel_name\x7d` is left
unchanged and unquoted — two different output forms, so the three input
forms do not resolve to exactly one canonical output form in that cited
implementation. -/
theorem replace_model_name_base_cex :
    UpdateDashboard.replace_model_name ("model: \"" ++ "somemodel" ++ "\"")
        = "model: " ++ "\"" ++ modelPlaceholder ++ "\""
    ∧ UpdateDashboard.replace_model_name ("model: " ++ modelPlaceholder)
        = "model: " ++ modelPlaceholder
    ∧ ("model: " ++ "\"" ++ modelPlaceholder ++ "\"" : String)
        ≠ "model: " ++ modelPlaceholder := by
  refine ⟨ud_replace_quoted "somemodel" (by decide), ud_replace_placeholder, ?_⟩
  decide

/-- C5 (amended): the tenant-script `replace_model_name`
(`update_tenant_dashboard.py`) rewrites all three value forms — quoted
string, bare token, templated placeholder — to the single canonical
output form determined by the target (the quoted target, or the target
verbatim when it is the placeholder); the `update_dashboard.py` variant,
which takes no target, instead rewrites the quoted and bare forms to the
quoted placeholder and leaves an already-templated value unchanged and
unquoted. -/
theorem replace_model_name_three_forms_amended (target s w : String)
    (hs : ∀ c ∈ s.data, c ≠ '"')
    (hw1 : w.data ≠ []) (hw2 : ∀ c ∈ w.data, isModelTokCh c = true)
    (hw3 : ∀ c, w.data.head? = some c → c ≠ '@') :
    (replace_model_name ("model: \"" ++ s ++ "\"") target
        = "model: " ++ canonicalModelTarget target
     ∧ replace_model_name ("model: " ++ w) target
        = "model: " ++ canonicalModelTarget target
     ∧ replace_model_name ("model: " ++ modelPlaceholder) target
        = "model: " ++ canonicalModelTarget target)
    ∧ UpdateDashboard.replace_model_name ("model: \"" ++ s ++ "\"")
        = "model: " ++ "\"" ++ modelPlaceholder ++ "\""
    ∧ UpdateDashboard.replace_model_name ("model: " ++ w)
        = "model: " ++ "\"" ++ modelPlaceholder ++ "\""
    ∧ UpdateDashboard.replace_model_name ("model: " ++ modelPlaceholder)
        = "model: " ++ modelPlaceholder := by
  refine ⟨replace_model_name_three_forms target s w hs hw1 hw2,
    ud_replace_quoted s hs, ?_, ud_replace_placeholder⟩
  refine ud_replace_bare w hw1 ?_ ?_
  · intro c hc
    refine ⟨tok_not_ws c (hw2 c hc), ?_⟩
    intro h2
    subst h2
    exact absurd (hw2 _ hc) (by decide)
  · intro c hc
    rintro (rfl | rfl)
    · exact absurd (hw2 '"' (List.mem_of_mem_head? hc)) (by decide)
    · exact absurd rfl (hw3 '@' hc)

/-- Witness for C5's amended theorem at concrete inputs: both scripts
evaluated on `model: "basemodel"`, `model: basemodel` and the
placeholder form. -/
theorem replace_model_name_three_forms_amended_witness :
    (replace_model_name ("model: \"" ++ "basemodel" ++ "\"") "tenant_1"
        = "model: " ++ canonicalModelTarget "tenant_1"
     ∧ replace_model_name ("model: " ++ "basemodel") "tenant_1"
        = "model: " ++ canonicalModelTarget "tenant_1"
     ∧ replace_model_name ("model: " ++ modelPlaceholder) "tenant_1"
        = "model: " ++ canonicalModelTarget "tenant_1")
    ∧ UpdateDashboard.replace_model_name ("model: \"" ++ "basemodel" ++ "\"")
        = "model: " ++ "\"" ++ modelPlaceholder ++ "\""
    ∧ UpdateDashboard.replace_model_name ("model: " ++ "basemodel")
        = "model: " ++ "\"" ++ modelPlaceholder ++ "\""
    ∧ UpdateDashboard.replace_model_name ("model: " ++ modelPlaceholder)
        = "model: " ++ modelPlaceholder :=
  replace_model_name_three_forms_amended "tenant_1" "basemodel" "basemodel"
    (by decide) (by decide) (by decide) (by decide)

/-! ### Document generator claims (C7, C9) -/

theorem tryModelMatch_dash (cs : List Char) : tryModelMatch ('-' :: cs) = none := rfl

theorem subModelAux_three_dashes (repl cs : List Char) :
    subModelAux repl ('-' :: '-' :: '-' :: cs) = '-' :: '-' :: '-' :: subModelAux repl cs := by
  rw [subModelAux_skip _ _ _ (tryModelMatch_dash _), subModelAux_skip _ _ _ (tryModelMatch_dash _),
    subModelAux_skip _ _ _ (tryModelMatch_dash _)]

theorem replace_model_name_keeps_dashes (out target : String) (rest : List Char)
    (h : out.data = '-' :: '-' :: '-' :: rest) :
    strStartsWith (replace_model_name out target) "---" = true := by
  unfold replace_model_name strStartsWith
  rw [h, subModelAux_three_dashes]
  show ("---".data).isPrefixOf
    ('-' :: '-' :: '-' :: subModelAux (canonicalModelTarget target).data rest) = true
  rw [show ("---".data : List Char) = ['-', '-', '-'] from rfl]
  simp [List.isPrefixOf]

/-- C7: the dict built by `generate_extends_dashboard` carries the
dashboard name, the tenant title (or the `"<base> - <tenant>"` default
when the tenant title is empty) and `extends: [base]`; it omits the
`elements` and `filters` keys exactly when the corresponding diff list
is empty; and the final output text begins with the `---` document
separator. -/
theorem generate_extends_dashboard_spec
    (n t b : String) (de df : List Elem) (ti mo : String) :
    lookupAssoc (extendsDoc n t b de df ti) "dashboard" = some (Value.str n)
    ∧ lookupAssoc (extendsDoc n t b de df ti) "title"
        = some (Value.str (if ti = "" then b ++ " - " ++ t else ti))
    ∧ lookupAssoc (extendsDoc n t b de df ti) "extends"
        = some (Value.list [Value.str b])
    ∧ lookupAssoc (extendsDoc n t b de df ti) "elements"
        = (if de.isEmpty then none else some (Value.list (de.map Value.map)))
    ∧ lookupAssoc (extendsDoc n t b de df ti) "filters"
        = (if df.isEmpty then none else some (Value.list (df.map Value.map)))
    ∧ strStartsWith (generate_extends_dashboard n t b de df ti mo) "---" = true := by
  refine ⟨?_, ?_, ?_, ?_, ?_, ?_⟩
  · rfl
  · rfl
  · rfl
  · cases hde : de.isEmpty <;> cases hdf : df.isEmpty <;>
      simp [extendsDoc, hde, hdf, lookupAssoc]
  · cases hde : de.isEmpty <;> cases hdf : df.isEmpty <;>
      simp [extendsDoc, hde, hdf, lookupAssoc]
  · unfold generate_extends_dashboard
    have hpre : ∀ (out : String),
        ∃ rest, (if strStartsWith out "---\n" then out else "---\n" ++ out).data
          = '-' :: '-' :: '-' :: rest := by
      intro out
      by_cases h : strStartsWith out "---\n" = true
      · rw [if_pos h]
        unfold strStartsWith at h
        obtain ⟨tail, htail⟩ := List.isPrefixOf_iff_prefix.mp h
        exact ⟨'\n' :: tail, by rw [← htail]; rfl⟩
      · rw [if_neg h]
        refine ⟨'\n' :: out.data, ?_⟩
        rw [String.data_append, show ("---\n".data : List Char) = ['-', '-', '-', '\n'] from rfl]
        rfl
    obtain ⟨rest, hrest⟩ := hpre (yamlDump [wrap_flow_structures (Value.map
      (extendsDoc n t b de df ti))])
    by_cases hmo : mo = ""
    · rw [if_pos hmo]
      exact replace_model_name_keeps_dashes _ _ rest hrest
    · rw [if_neg hmo]
      exact replace_model_name_keeps_dashes _ _ rest hrest

/-- C9: `generate_extends_dashboard` is a pure function of its seven
inputs — the embedding threads no state — so two runs on equal inputs
produce byte-identical output text. -/
theorem generate_extends_dashboard_deterministic
    (n t b : String) (de df : List Elem) (ti mo : String)
    (n2 t2 b2 : String) (de2 df2 : List Elem) (ti2 mo2 : String)
    (h1 : n = n2) (h2 : t = t2) (h3 : b = b2) (h4 : de = de2) (h5 : df = df2)
    (h6 : ti = ti2) (h7 : mo = mo2) :
    generate_extends_dashboard n t b de df ti mo
      = generate_extends_dashboard n2 t2 b2 de2 df2 ti2 mo2 := by
  subst h1; subst h2; subst h3; subst h4; subst h5; subst h6; subst h7
  rfl

/-- Witness for C9 at concrete inputs. -/
theorem generate_extends_dashboard_deterministic_witness :
    generate_extends_dashboard "d1" "tenant_1" "base_d"
        [[("name", Value.str "viz1")]] [] "" "tenant_1"
      = generate_extends_dashboard "d1" "tenant_1" "base_d"
        [[("name", Value.str "viz1")]] [] "" "tenant_1" :=
  generate_extends_dashboard_deterministic "d1" "tenant_1" "base_d"
    [[("name", Value.str "viz1")]] [] "" "tenant_1"
    "d1" "tenant_1" "base_d" [[("name", Value.str "viz1")]] [] "" "tenant_1"
    rfl rfl rfl rfl rfl rfl rfl

/-! ### Base-resolver lemmas (C8) -/

theorem word_not_ws (c : Char) (h : isWordCh c = true) : isPyWs c = false := by
  cases hws : isPyWs c
  · rfl
  · exfalso
    have hc : ((((c = ' ' ∨ c = '\t') ∨ c = '\n') ∨ c = '\r')
        ∨ c = Char.ofNat 11) ∨ c = Char.ofNat 12 := by
      simpa [isPyWs, decide_eq_true_eq] using hws
    rcases hc with ((((rfl | rfl) | rfl) | rfl) | rfl) | rfl <;> exact absurd h (by decide)

theorem searchFrom_eq_none {α : Type} (f : List Char → Option α) (cs : List Char)
    (h : ∀ s, s <:+ cs → f s = none) : searchFrom f cs = none := by
  induction cs with
  | nil =>
    show f [] = none
    exact h [] (List.suffix_refl _)
  | cons c cs ih =>
    show (match f (c :: cs) with
          | some r => some r
          | none => searchFrom f cs) = none
    rw [h (c :: cs) (List.suffix_refl _)]
    exact ih fun s hs => h s (hs.trans (List.suffix_cons c cs))

theorem searchFrom_eq_some_of {α : Type} (f : List Char → Option α) (cs : List Char)
    (r : α) (h : f cs = some r) (hne : cs ≠ []) : searchFrom f cs = some r := by
  cases cs with
  | nil => exact absurd rfl hne
  | cons c cs2 =>
    show (match f (c :: cs2) with
          | some r => some r
          | none => searchFrom f cs2) = some r
    rw [h]

theorem extendsFlowAt_needs_literal (s : List Char) (r : String)
    (h : extendsFlowAt s = some r) : "extends:".data <+: s := by
  unfold extendsFlowAt at h
  split at h
  · rename_i hpre
    exact List.isPrefixOf_iff_prefix.mp hpre
  · simp at h

theorem extendsBlockAt_needs_literal (s : List Char) (r : String)
    (h : extendsBlockAt s = some r) : "extends:".data <+: s := by
  unfold extendsBlockAt at h
  split at h
  · rename_i hpre
    exact List.isPrefixOf_iff_prefix.mp hpre
  · simp at h

theorem extendsFlowAt_mem_lbrack (s : List Char) (r : String)
    (h : extendsFlowAt s = some r) : '[' ∈ s := by
  unfold extendsFlowAt at h
  split at h
  case isFalse => simp at h
  case isTrue hpre =>
    split at h
    case h_2 => simp at h
    case h_1 c tail heq =>
      split at h
      case isFalse => simp at h
      case isTrue hc =>
        subst hc
        have h1 : '[' ∈ (s.drop 8).dropWhile isPyWs := by
          rw [heq]
          exact List.mem_cons_self _ _
        exact (List.drop_sublist 8 s).mem ((List.dropWhile_sublist isPyWs).mem h1)

theorem extendsFlowAt_flow_form (w post : List Char)
    (hw1 : w ≠ []) (hw2 : ∀ c ∈ w, isWordCh c = true) :
    extendsFlowAt ("extends: [".data ++ w ++ ']' :: post) = some (String.mk w) := by
  have hsplit := takeWhile_append_all isWordCh w (']' :: post) hw2
    (fun c hc => by
      simp only [List.head?_cons, Option.some.injEq] at hc
      subst hc; decide)
  show (if (((w ++ ']' :: post)).takeWhile isWordCh).isEmpty then none
        else
          match (w ++ ']' :: post).dropWhile isWordCh with
          | d :: _ =>
            if d = ']' then some (String.mk ((w ++ ']' :: post).takeWhile isWordCh))
            else none
          | [] => none) = some (String.mk w)
  rw [hsplit.1, hsplit.2]
  rw [if_neg (by simpa [List.isEmpty_iff] using hw1)]
  rfl

theorem extendsBlockAt_block_form (w post : List Char)
    (hw1 : w ≠ []) (hw2 : ∀ c ∈ w, isWordCh c = true)
    (hpost : ∀ c, post.head? = some c → isWordCh c = false) :
    extendsBlockAt ("extends:".data ++ '\n' :: ' ' :: ' ' :: '-' :: ' ' :: (w ++ post))
      = some (String.mk w) := by
  cases w with
  | nil => exact absurd rfl hw1
  | cons c0 wt =>
    have hc0 := hw2 c0 (List.mem_cons_self _ _)
    have hc0ws : isPyWs c0 = false := word_not_ws c0 hc0
    have hsplit := takeWhile_append_all isWordCh (c0 :: wt) post hw2 hpost
    have htw : (' ' :: (c0 :: wt ++ post)).takeWhile isPyWs = [' '] := by
      rw [show c0 :: wt ++ post = c0 :: (wt ++ post) from rfl]
      rw [List.takeWhile_cons, if_pos (show isPyWs ' ' = true by decide),
        List.takeWhile_cons, if_neg (show ¬ isPyWs c0 = true by simp [hc0ws])]
    have hdw : (' ' :: (c0 :: wt ++ post)).dropWhile isPyWs = c0 :: wt ++ post := by
      rw [show c0 :: wt ++ post = c0 :: (wt ++ post) from rfl]
      rw [List.dropWhile_cons, if_pos (show isPyWs ' ' = true by decide),
        List.dropWhile_cons, if_neg (show ¬ isPyWs c0 = true by simp [hc0ws])]
    show (if ((' ' :: (c0 :: wt ++ post)).takeWhile isPyWs).isEmpty then none
          else
            if (((' ' :: (c0 :: wt ++ post)).dropWhile isPyWs).takeWhile isWordCh).isEmpty
            then none
            else some (String.mk
              (((' ' :: (c0 :: wt ++ post)).dropWhile isPyWs).takeWhile isWordCh)))
        = some (String.mk (c0 :: wt))
    rw [htw, hdw, hsplit.1]
    rfl

/-- C8: base resolution honors a truthy explicit override
unconditionally; with no override it reads the existing tenant file
(exact filename first — clause six — then the content scan built into
`find_existing_file`) and extracts the extends target from the
single-line flow rendering or the block-list rendering; it returns
`none` (standalone) when there is no override and no existing file, or
when the existing file holds no `extends:` declaration. -/
theorem resolveBase_spec :
    (∀ (o : String) (fs : List (String × String)) (n : String), o ≠ "" →
        resolveBase (some o) fs n = some o)
    ∧ (∀ (fs : List (String × String)) (n : String),
        find_existing_file fs n = none → resolveBase none fs n = none)
    ∧ (∀ (fs : List (String × String)) (n : String) (fc : String × String),
        find_existing_file fs n = some fc →
        ¬ ("extends:".data <:+: fc.2.data) → resolveBase none fs n = none)
    ∧ (∀ (fs : List (String × String)) (n : String) (fc : String × String)
        (w post : List Char),
        find_existing_file fs n = some fc →
        fc.2.data = "extends: [".data ++ w ++ ']' :: post →
        w ≠ [] → (∀ c ∈ w, isWordCh c = true) →
        resolveBase none fs n = some (String.mk w))
    ∧ (∀ (fs : List (String × String)) (n : String) (fc : String × String)
        (w post : List Char),
        find_existing_file fs n = some fc →
        fc.2.data = "extends:".data ++ '\n' :: ' ' :: ' ' :: '-' :: ' ' :: (w ++ post) →
        w ≠ [] → (∀ c ∈ w, isWordCh c = true) →
        (∀ c, post.head? = some c → isWordCh c = false) →
        '[' ∉ post →
        resolveBase none fs n = some (String.mk w))
    ∧ (∀ (fs : List (String × String)) (n c : String),
        find_existing_file ((n ++ ".dashboard.lookml", c) :: fs) n
          = some (n ++ ".dashboard.lookml", c)) := by
  refine ⟨?_, ?_, ?_, ?_, ?_, ?_⟩
  · intro o fs n ho
    show (if o = "" then detect_base_dashboard_name fs n else some o) = some o
    rw [if_neg ho]
  · intro fs n hfind
    show (match find_existing_file fs n with
          | none => none
          | some fc =>
            match searchFrom extendsFlowAt fc.2.data with
            | some w => some w
            | none => searchFrom extendsBlockAt fc.2.data) = none
    rw [hfind]
  · intro fs n fc hfind hninf
    show (match find_existing_file fs n with
          | none => none
          | some fc =>
            match searchFrom extendsFlowAt fc.2.data with
            | some w => some w
            | none => searchFrom extendsBlockAt fc.2.data) = none
    rw [hfind]
    show (match searchFrom extendsFlowAt fc.2.data with
          | some w => some w
          | none => searchFrom extendsBlockAt fc.2.data) = none
    have hflow : searchFrom extendsFlowAt fc.2.data = none := by
      apply searchFrom_eq_none
      intro s hs
      cases hf : extendsFlowAt s with
      | none => rfl
      | some r =>
        exact absurd ((extendsFlowAt_needs_literal s r hf).isInfix.trans hs.isInfix) hninf
    have hblock : searchFrom extendsBlockAt fc.2.data = none := by
      apply searchFrom_eq_none
      intro s hs
      cases hf : extendsBlockAt s with
      | none => rfl
      | some r =>
        exact absurd ((extendsBlockAt_needs_literal s r hf).isInfix.trans hs.isInfix) hninf
    rw [hflow, hblock]
  · intro fs n fc w post hfind hcontent hw1 hw2
    show (match find_existing_file fs n with
          | none => none
          | some fc =>
            match searchFrom extendsFlowAt fc.2.data with
            | some w => some w
            | none => searchFrom extendsBlockAt fc.2.data) = some (String.mk w)
    rw [hfind]
    show (match searchFrom extendsFlowAt fc.2.data with
          | some w => some w
          | none => searchFrom extendsBlockAt fc.2.data) = some (String.mk w)
    rw [hcontent,
      searchFrom_eq_some_of _ _ _ (extendsFlowAt_flow_form w post hw1 hw2) (by simp)]
  · intro fs n fc w post hfind hcontent hw1 hw2 hpost hnol
    show (match find_existing_file fs n with
          | none => none
          | some fc =>
            match searchFrom extendsFlowAt fc.2.data with
            | some w => some w
            | none => searchFrom extendsBlockAt fc.2.data) = some (String.mk w)
    rw [hfind]
    show (match searchFrom extendsFlowAt fc.2.data with
          | some w => some w
          | none => searchFrom extendsBlockAt fc.2.data) = some (String.mk w)
    rw [hcontent]
    have hnolb : '[' ∉ "extends:".data ++ '\n' :: ' ' :: ' ' :: '-' :: ' ' :: (w ++ post) := by
      intro hmem
      rcases List.mem_append.mp hmem with h | h
      · exact absurd h (by decide)
      · simp only [List.mem_cons] at h
        rcases h with h | h | h | h | h | h
        · exact absurd h (by decide)
        · exact absurd h (by decide)
        · exact absurd h (by decide)
        · exact absurd h (by decide)
        · exact absurd h (by decide)
        · rcases List.mem_append.mp h with h2 | h2
          · exact absurd (hw2 '[' h2) (by decide)
          · exact hnol h2
    have hflow : searchFrom extendsFlowAt
        ("extends:".data ++ '\n' :: ' ' :: ' ' :: '-' :: ' ' :: (w ++ post)) = none := by
      apply searchFrom_eq_none
      intro s hs
      cases hf : extendsFlowAt s with
      | none => rfl
      | some r => exact absurd (hs.subset (extendsFlowAt_mem_lbrack s r hf)) hnolb
    rw [hflow,
      searchFrom_eq_some_of _ _ _ (extendsBlockAt_block_form w post hw1 hw2 hpost) (by simp)]
  · intro fs n c
    show (match List.find? (fun f => f.1 == n ++ ".dashboard.lookml")
            ((n ++ ".dashboard.lookml", c) :: fs) with
          | some f => some f
          | none =>
            List.find? (fun f =>
              f.1.endsWith ".dashboard.lookml"
              && searchLines (dashDeclAt n.data) f.2.data)
              ((n ++ ".dashboard.lookml", c) :: fs))
        = some (n ++ ".dashboard.lookml", c)
    have hfind2 : List.find? (fun f => f.1 == n ++ ".dashboard.lookml")
        ((n ++ ".dashboard.lookml", c) :: fs) = some (n ++ ".dashboard.lookml", c) := by
      rw [List.find?_cons]
      simp
    rw [hfind2]

/-- Witness for C8 at concrete inputs: an explicit override wins, and a
tenant file whose content is a flow extends declaration resolves to the
declared base. -/
theorem resolveBase_spec_witness :
    resolveBase (some "base_override") [] "d1" = some "base_override"
    ∧ resolveBase none
        [("d1.dashboard.lookml",
          String.mk ("extends: [".data ++ "base_dash".data ++ ']' :: ['\n']))]
        "d1" = some (String.mk "base_dash".data) := by
  obtain ⟨h1, _, _, h4, _, h6⟩ := resolveBase_spec
  refine ⟨h1 "base_override" [] "d1" (by decide), ?_⟩
  exact h4 _ "d1" _ "base_dash".data ['\n']
    (h6 [] "d1" (String.mk ("extends: [".data ++ "base_dash".data ++ ']' :: ['\n'])))
    rfl (by decide) (by decide)

end DashboardSync
